import Mathlib

/-!
Verification development for the `buildable` track insertion/removal engine
(`src/buildable/live_set.py` and `src/buildable/base.py`).

The XML tree accessed through the typed views of the Python entity model is
shallowly embedded as Lean structures: each structure field corresponds to an
XML attribute or child list that the source reads or writes.  Machine
integers appearing in attributes are modelled as `Int` (Python ints are
unbounded).  Fallible operations return `Except Err`, and the top-level
operations return the (possibly partially mutated) document together with an
optional error, mirroring the non-transactional in-place mutation of the
source.

Pointee-bearing nodes (`AutomationTarget`, `Pointee`, `ControllerTargets.*`,
`*ModulationTarget`) of a track subtree are modelled, in document order, by
the list `pointeeDefs` of their `Id` attributes, and the `PointeeId`
reference nodes by the list `pointeeRefs` of their `Value` attributes.  The
two pointee targets stored inside each `Send` element are carried in the
`Send` structure; after the pointee-remap stage the engine never reads a
pointee definition again, so the model keeps the two representations
separate.
-/

/-- Error kinds raised by the engine, one constructor per distinct raise
site that the model can reach. -/
inductive Err where
  | negativeIndex
  | rangeIndex
  | indexError
  | unknownPointee (n : Int)
  | returnHasGroup
  | unknownGroup (g : Int)
  | linkedNotSupported
  | sendHolderIdMismatch
  | sendPreIdMismatch
  | noMainTrack
  deriving DecidableEq, Repr

/-- The constant `Send._MIN_VALUE_STR` from the source. -/
def minValueStr : String := "0.0003162277571"

/-- Model of a `<Send>` element: the `Manual` value, the
`MidiControllerRange` bounds (all stored as attribute strings, exactly as
the source writes them), and the two pointee-definition ids. -/
structure Send where
  manual : String
  rangeMin : String
  rangeMax : String
  automationTargetId : Int
  modulationTargetId : Int
  deriving DecidableEq, Repr

/-- `Send.create` from the source: a blank send with the minimum manual
value, range `[min, 1]`, and the two given pointee ids. -/
def Send.create (a m : Int) : Send :=
  ⟨minValueStr, minValueStr, "1", a, m⟩

/-- Model of a `<TrackSendHolder>` element. -/
structure TSH where
  id : Int
  enabledByUser : Bool
  send : Send
  deriving DecidableEq, Repr

/-- Model of a `<SendPreBool>` element. -/
structure SendPreBool where
  id : Int
  value : Bool
  deriving DecidableEq, Repr

/-- A segment of a routing target string: either literal text or a
`Track.<n>` reference (the regex `(Track\.)(\d+)` only matches a
non-negative id, hence `Nat`). -/
inductive RSeg where
  | lit (s : String)
  | trackRef (n : Nat)
  deriving DecidableEq, Repr

/-- Track kinds: the three primary tags plus the return tag. -/
inductive TKind where
  | audio
  | group
  | midi
  | ret
  deriving DecidableEq, Repr

/-- Model of a mixer-track element (primary or return): the attributes and
children accessed by the engine. -/
structure MixerTrack where
  kind : TKind
  id : Int
  trackGroupId : Int
  linkedTrackGroupId : Int
  audioIn : List RSeg
  audioOut : List RSeg
  midiIn : List RSeg
  midiOut : List RSeg
  sends : List TSH
  pointeeDefs : List Int
  pointeeRefs : List Int
  deriving DecidableEq, Repr

/-- Whether a track element carries the `ReturnTrack` tag. -/
def isRet (t : MixerTrack) : Bool := t.kind = TKind.ret

/-- Model of the main-track element (no `Id` attribute: the source class
`MainTrack` derives from `Track`, not `MixerTrack`, so it has no id
accessor). -/
structure MainTrack where
  linkedTrackGroupId : Int
  pointeeDefs : List Int
  pointeeRefs : List Int
  deriving DecidableEq, Repr

/-- Model of a `LiveSet` document: the `Tracks` children in order, the
optional `MainTrack` child, the `SendsPre` children, and the
`NextPointeeId` counter. -/
structure Doc where
  tracks : List MixerTrack
  mainTrack : Option MainTrack
  sendsPre : List SendPreBool
  nextPointeeId : Int
  deriving DecidableEq, Repr

/-- A return track handed to `insert_tracks`: the element plus the
out-of-tree context (`send_index`, `send_pre`) carried by the Python
`ReturnTrack` object and preserved by `copy.deepcopy`. -/
structure RetIn where
  track : MixerTrack
  sendIndex : Nat
  sendPre : Bool
  deriving DecidableEq, Repr

/-- Argument record of `LiveSet.insert_tracks`. -/
structure Args where
  primaryTracks : List MixerTrack
  primaryIndex : Int
  returnTracks : List RetIn
  returnIndex : Int
  mainTrack : Option MainTrack
  deriving DecidableEq, Repr

/-- Stage labels for the steps of `insert_tracks` named by the spec; the
trace records the stages in execution order. -/
inductive Stage where
  | deepCopy
  | pointeeRemap
  | trackIdRemap
  | sendSync
  | splice
  | mainReplace
  deriving DecidableEq, Repr

/-- Python `list.insert(i, a)` for a non-negative index: positions past the
end append (`take`/`drop` clamp exactly like the source). -/
def pyInsert (l : List α) (i : Nat) (a : α) : List α :=
  l.take i ++ [a] ++ l.drop i

/-- Effect of `for t in reversed(xs): l.insert(i, t)` from the splice loop
of `insert_tracks`. -/
def spliceAt (l : List α) (i : Nat) (xs : List α) : List α :=
  xs.reverse.foldl (fun acc x => pyInsert acc i x) l

/-- Python `dict` lookup for a dict built by repeated assignment from an
association list: the most recent binding wins. -/
def dictGet (m : List (Int × Int)) (k : Int) : Option Int :=
  (m.reverse.find? (fun p => p.1 = k)).map Prod.snd

/-- The renumber loop of `Sends.insert_send`: for each position from
`start` to the end, assert that the holder still carries its pre-insertion
id (`pos - 1`) and rewrite it to `pos`.  `pos` tracks the position of the
list head. -/
def renumberSendsAux (start : Nat) : List TSH → Nat → Except Err (List TSH)
  | [], _ => .ok []
  | h :: t, pos =>
    if start ≤ pos then
      if h.id = (pos : Int) - 1 then
        (renumberSendsAux start t (pos + 1)).map (fun r => { h with id := (pos : Int) } :: r)
      else
        .error .sendHolderIdMismatch
    else
      (renumberSendsAux start t (pos + 1)).map (fun r => h :: r)

/-- `Sends.insert_send`: build a holder whose declared `Id` is the insertion
index, insert it, then renumber every later holder. -/
def insertSend (sends : List TSH) (index : Nat) (send : Send) (enabled : Bool) :
    Except Err (List TSH) :=
  renumberSendsAux (index + 1) (pyInsert sends index ⟨(index : Int), enabled, send⟩) 0

/-- The unconditional renumbering performed by `Sends.delete_send` after a
removal: every holder's id becomes its index. -/
def renumberAllSends (l : List TSH) : List TSH :=
  l.enum.map (fun p => { p.2 with id := (p.1 : Int) })

/-- `Sends.delete_send` (the tag assertion is vacuous in the model, where
every child is a holder). -/
def deleteSend (l : List TSH) (i : Nat) : List TSH :=
  renumberAllSends (l.eraseIdx i)

/-- The clearing loop `while len(sends) > 0: sends.delete_send(0)` with an
explicit fuel (each `delete_send(0)` removes exactly one holder and the
renumbering keeps the length, so a fuel equal to the initial length runs
the loop to completion). -/
def clearSendsF : Nat → List TSH → List TSH
  | 0, l => l
  | f + 1, l =>
    match l with
    | [] => []
    | _ :: t => clearSendsF f (renumberAllSends t)

/-- The clearing loop `while len(sends) > 0: sends.delete_send(0)` from
`insert_tracks`. -/
def clearSends (l : List TSH) : List TSH :=
  clearSendsF l.length l

/-- `add_blank_send` from `insert_tracks`: read the counter twice for the
two fresh pointee ids, advance it by two (before the insertion, so the
counter is advanced even when the insertion asserts), then insert a blank
send. -/
def addBlankSendSt (index : Nat) (sends : List TSH) (c : Int) :
    Except Err (List TSH) × Int :=
  (insertSend sends index (Send.create c (c + 1)) false, c + 2)

/-- The renumber loop of `SendsPre.insert_send_pre_bool`, exactly as
written in the source: position `index` — the newly inserted element — is
read and rewritten at every iteration `j` (the source indexes
`send_pre_bools[index]` where the renumbering of the holders indexes
position `i`). -/
def sendsPreLoop : Nat → List SendPreBool → Nat → Nat → Except Err (List SendPreBool)
  | 0, l, _, _ => .ok l
  | f + 1, l, index, j =>
    if j < l.length then
      match l[index]? with
      | none => .error .indexError
      | some b =>
        if b.id = (j : Int) - 1 then
          sendsPreLoop f (l.set index { b with id := (j : Int) }) index (j + 1)
        else
          .error .sendPreIdMismatch
    else
      .ok l

/-- `SendsPre.insert_send_pre_bool`: insert a bool whose declared `Id` is
the insertion index, then run the renumber loop over positions
`index + 1 .. len - 1` (the fuel equals the list length, an upper bound on
the remaining iterations since `List.set` keeps the length). -/
def insertSendPreBool (bools : List SendPreBool) (index : Nat) (v : Bool) :
    Except Err (List SendPreBool) :=
  sendsPreLoop (bools.length + 1) (pyInsert bools index ⟨(index : Int), v⟩) index (index + 1)

/-- The pointee-bearing content of one element passed to
`_update_pointee_ids`: definition-node ids and `PointeeId` reference values
in document order. -/
structure PtElem where
  defs : List Int
  refs : List Int
  deriving DecidableEq, Repr

/-- Phase one of `_update_pointee_ids` over the defs of one element: assign
each definition node the next counter value, recording the old-to-new pair
in walk order. -/
def assignDefsList : List Int → Int → List (Int × Int) × List Int × Int
  | [], n => ([], [], n)
  | d :: ds, n =>
    let r := assignDefsList ds (n + 1)
    ((d, n) :: r.1, n :: r.2.1, r.2.2)

/-- Phase one of `_update_pointee_ids` over all elements in order. -/
def assignDefsElems : List PtElem → Int → List (Int × Int) × List PtElem × Int
  | [], n => ([], [], n)
  | e :: es, n =>
    let r₁ := assignDefsList e.defs n
    let r₂ := assignDefsElems es r₁.2.2
    (r₁.1 ++ r₂.1, { e with defs := r₁.2.1 } :: r₂.2.1, r₂.2.2)

/-- Phase two of `_update_pointee_ids`: rewrite each `PointeeId` value via
the mapping; a value absent from the mapping raises. -/
def remapRefList (m : List (Int × Int)) : List Int → Except Err (List Int)
  | [] => .ok []
  | r :: rs =>
    match dictGet m r with
    | none => .error (.unknownPointee r)
    | some v => (remapRefList m rs).map (fun l => v :: l)

/-- Phase two over all elements in order. -/
def remapRefsElems (m : List (Int × Int)) : List PtElem → Except Err (List PtElem)
  | [] => .ok []
  | e :: es => do
    let refs ← remapRefList m e.refs
    let rest ← remapRefsElems m es
    .ok ({ e with refs := refs } :: rest)

/-- `LiveSet._update_pointee_ids`: assign fresh ids to every definition
node of the batch, then rewrite every reference; the new counter value is
returned (and persisted by the caller) only when both phases succeed. -/
def updatePointeeIds (elems : List PtElem) (next : Int) :
    Except Err (List PtElem × Int) := do
  let r := assignDefsElems elems next
  let elems' ← remapRefsElems r.1 r.2.1
  .ok (elems', r.2.2)

/-- Pointee view of a mixer track. -/
def trackPt (t : MixerTrack) : PtElem := ⟨t.pointeeDefs, t.pointeeRefs⟩

/-- Pointee view of the main track. -/
def mainPt (m : MainTrack) : PtElem := ⟨m.pointeeDefs, m.pointeeRefs⟩

/-- Write the remapped pointee lists back into the mixer tracks. -/
def writeBackMixer (mixer : List MixerTrack) (elems : List PtElem) : List MixerTrack :=
  mixer.zipWith (fun t e => { t with pointeeDefs := e.defs, pointeeRefs := e.refs }) elems

/-- Write the remapped pointee lists back into the main track. -/
def writeBackMain (main : Option MainTrack) (elems : List PtElem) : Option MainTrack :=
  match main, elems with
  | some m, e :: _ => some { m with pointeeDefs := e.defs, pointeeRefs := e.refs }
  | some m, [] => some m
  | none, _ => none

/-- Monadic map over `Except`, processing the list in order and stopping at
the first failure (the semantics of a Python `for` loop that can raise). -/
def exceptMapM (f : α → Except Err β) : List α → Except Err (List β)
  | [] => .ok []
  | x :: xs => do
    let y ← f x
    let ys ← exceptMapM f xs
    .ok (y :: ys)

/-- Phase one of `_update_track_ids`: assign sequential ids to the batch
and build the old-to-new mapping (Python dict semantics: a repeated old id
keeps the latest binding, which `dictGet` realizes by searching from the
back). -/
def assignTrackIds : List MixerTrack → Int → List (Int × Int) × List MixerTrack × Int
  | [], n => ([], [], n)
  | t :: ts, n =>
    let r := assignTrackIds ts (n + 1)
    ((t.id, n) :: r.1, { t with id := n } :: r.2.1, r.2.2)

/-- The regex substitution on one routing target: every `Track.<n>`
occurrence is replaced through the mapping, values outside the mapping are
left unchanged. -/
def rewriteRouting (m : List (Int × Int)) (segs : List RSeg) : List RSeg :=
  segs.map (fun s =>
    match s with
    | .lit x => .lit x
    | .trackRef n =>
      match dictGet m (n : Int) with
      | some v => .trackRef v.toNat
      | none => .trackRef n)

/-- Phase two of `_update_track_ids` for one track: group-id validation and
rewrite, then the routing rewrites. -/
def fixGroupAndRoutings (m : List (Int × Int)) (t : MixerTrack) : Except Err MixerTrack := do
  let t₁ ←
    if 0 ≤ t.trackGroupId then
      if t.kind = TKind.ret then
        Except.error Err.returnHasGroup
      else
        match dictGet m t.trackGroupId with
        | none => Except.error (Err.unknownGroup t.trackGroupId)
        | some g => Except.ok { t with trackGroupId := g }
    else
      Except.ok t
  .ok { t₁ with
        audioIn := rewriteRouting m t₁.audioIn,
        audioOut := rewriteRouting m t₁.audioOut,
        midiIn := rewriteRouting m t₁.midiIn,
        midiOut := rewriteRouting m t₁.midiOut }

/-- `LiveSet._update_track_ids`: compute `max(0, existing ids) + 1`, assign
sequential fresh ids to the batch, then validate and rewrite group ids and
routings track by track. -/
def updateTrackIds (existing : List Int) (tracks : List MixerTrack) :
    Except Err (List MixerTrack) :=
  let next := existing.foldl max 0 + 1
  let r := assignTrackIds tracks next
  exceptMapM (fixGroupAndRoutings r.1) r.2.1

/-- `LiveSet._update_linked_track_group_ids` over the batch (mixer tracks
then the optional main track). -/
def checkLinked (mixer : List MixerTrack) (main : Option MainTrack) : Except Err Unit :=
  if mixer.all (fun t => t.linkedTrackGroupId = -1)
      && main.all (fun m => m.linkedTrackGroupId = -1) then
    .ok ()
  else
    .error .linkedNotSupported

/-- Constructing `self.return_tracks`: the count of `ReturnTrack` elements,
or `none` for the `IndexError` raised when `SendsPre` is shorter than the
return-track count (each context reads `send_pre_bools[index]`). -/
def returnTracksLen (doc : Doc) : Option Nat :=
  let k := (doc.tracks.filter isRet).length
  if k ≤ doc.sendsPre.length then some k else none

/-- The inner loop of synchronization step one: add one blank send at the
insertion column to every mixer track currently in the document, threading
the `NextPointeeId` counter. -/
def addBlanksToTracks (ri : Nat) : List MixerTrack → Int → Except Err (List MixerTrack × Int)
  | [], c => .ok ([], c)
  | t :: ts, c =>
    match addBlankSendSt ri t.sends c with
    | (.error e, _) => .error e
    | (.ok s', c') =>
      (addBlanksToTracks ri ts c').map (fun r => ({ t with sends := s' } :: r.1, r.2))

/-- One iteration of synchronization step one (one inserted return track):
blank sends into every existing mixer track, then the `SendPreBool`
insertion. -/
def stepAOnce (ri : Nat) (pre : Bool) (doc : Doc) : Except Err Doc := do
  let r ← addBlanksToTracks ri doc.tracks doc.nextPointeeId
  let bools ← insertSendPreBool doc.sendsPre ri pre
  .ok { doc with tracks := r.1, sendsPre := bools, nextPointeeId := r.2 }

/-- Synchronization step one: iterate over the inserted return tracks in
reversed order, as the source does. -/
def stepA (ri : Nat) (pres : List Bool) (doc : Doc) : Except Err Doc :=
  pres.reverse.foldlM (fun d p => stepAOnce ri p d) doc

/-- Add `n` blank sends at index 0, as the middle loop of synchronization
step two does. -/
def addBlanksN : Nat → List TSH → Int → Except Err (List TSH × Int)
  | 0, s, c => .ok (s, c)
  | n + 1, s, c =>
    match addBlankSendSt 0 s c with
    | (.error e, _) => .error e
    | (.ok s', c') => addBlanksN n s' c'

/-- Synchronization step two for one inserted mixer track: capture the
holders at the source columns of the co-inserted return tracks, clear the
send list, add one blank per destination return track, then re-insert the
captured holders at the insertion column in reversed order. -/
def rebuildSends (ri : Nat) (retsIn : List RetIn) (r0 : Nat) (t : MixerTrack) (c : Int) :
    Except Err (MixerTrack × Int) := do
  let ext ← exceptMapM (fun r =>
    match t.sends[r.sendIndex]? with
    | some h => Except.ok h
    | none => Except.error Err.indexError) retsIn
  let s0 := clearSends t.sends
  let r₁ ← addBlanksN r0 s0 c
  let s2 ← ext.reverse.foldlM (fun s h => insertSend s ri h.send h.enabledByUser) r₁.1
  .ok ({ t with sends := s2 }, r₁.2)

/-- Synchronization step two over all inserted mixer tracks in order,
threading the counter. -/
def stepB (ri : Nat) (retsIn : List RetIn) (r0 : Nat) :
    List MixerTrack → Int → Except Err (List MixerTrack × Int)
  | [], c => .ok ([], c)
  | t :: ts, c => do
    let r₁ ← rebuildSends ri retsIn r0 t c
    let r₂ ← stepB ri retsIn r0 ts r₁.2
    .ok (r₁.1 :: r₂.1, r₂.2)

/-- The pointee views of the whole batch, in the order of the source list
`tracks = mixer_tracks + main`. -/
def batchPt (a : Args) : List PtElem :=
  (a.primaryTracks ++ a.returnTracks.map RetIn.track).map trackPt
    ++ (a.mainTrack.map mainPt).toList

/-- `LiveSet.insert_tracks`.  The first component is the document paired
with an optional error; the second is the trace of the executed
spec-visible stages in order.  On an error raised at or before the pointee
remap the returned document is the untouched input; on an error raised
after it the returned document reflects the counter persisted by the
successful pointee remap (the source additionally leaves later in-place
mutations behind on a mid-synchronization assertion, a state no theorem
below observes). -/
def insertTracks (doc : Doc) (a : Args) : (Doc × Option Err) × List Stage :=
  match returnTracksLen doc with
  | none => ((doc, some .indexError), [])
  | some r0 =>
    let pcount := (doc.tracks.filter (fun t => !isRet t)).length
    if a.primaryIndex < 0 then ((doc, some .negativeIndex), [])
    else if (pcount : Int) < a.primaryIndex then ((doc, some .rangeIndex), [])
    else if a.returnIndex < 0 then ((doc, some .negativeIndex), [])
    else if (r0 : Int) < a.returnIndex then ((doc, some .rangeIndex), [])
    else
      -- deep copies: value semantics make the copies the values themselves
      let pi := a.primaryIndex.toNat
      let ri := a.returnIndex.toNat
      let primary := a.primaryTracks
      let retsIn := a.returnTracks
      let mixer := primary ++ retsIn.map RetIn.track
      match updatePointeeIds (batchPt a) doc.nextPointeeId with
      | .error e => ((doc, some e), [.deepCopy, .pointeeRemap])
      | .ok (elems, next) =>
        let mixer₁ := writeBackMixer mixer (elems.take mixer.length)
        let main₁ := writeBackMain a.mainTrack (elems.drop mixer.length)
        let doc₁ := { doc with nextPointeeId := next }
        match updateTrackIds (doc₁.tracks.map MixerTrack.id) mixer₁ with
        | .error e => ((doc₁, some e), [.deepCopy, .pointeeRemap, .trackIdRemap])
        | .ok mixer₂ =>
          match checkLinked mixer₂ main₁ with
          | .error e => ((doc₁, some e), [.deepCopy, .pointeeRemap, .trackIdRemap])
          | .ok _ =>
            match stepA ri (retsIn.map RetIn.sendPre) doc₁ with
            | .error e =>
              ((doc₁, some e), [.deepCopy, .pointeeRemap, .trackIdRemap, .sendSync])
            | .ok doc₂ =>
              match stepB ri retsIn r0 mixer₂ doc₂.nextPointeeId with
              | .error e =>
                ((doc₂, some e), [.deepCopy, .pointeeRemap, .trackIdRemap, .sendSync])
              | .ok (mixer₃, next₂) =>
                let doc₃ := { doc₂ with nextPointeeId := next₂ }
                let p0 := (doc₃.tracks.filter (fun t => !isRet t)).length
                let primary₃ := mixer₃.take primary.length
                let rets₃ := mixer₃.drop primary.length
                let tracks₁ := spliceAt doc₃.tracks pi primary₃
                let tracks₂ := spliceAt tracks₁ (p0 + primary.length + ri) rets₃
                let doc₄ := { doc₃ with tracks := tracks₂ }
                match a.mainTrack with
                | none =>
                  ((doc₄, none),
                    [.deepCopy, .pointeeRemap, .trackIdRemap, .sendSync, .splice])
                | some _ =>
                  match doc₄.mainTrack with
                  | none =>
                    ((doc₄, some .noMainTrack),
                      [.deepCopy, .pointeeRemap, .trackIdRemap, .sendSync, .splice,
                        .mainReplace])
                  | some _ =>
                    (({ doc₄ with mainTrack := main₁ }, none),
                      [.deepCopy, .pointeeRemap, .trackIdRemap, .sendSync, .splice,
                        .mainReplace])

/-- `LiveSet.insert_primary_tracks`. -/
def insertPrimaryTracks (doc : Doc) (ts : List MixerTrack) (i : Int) :
    (Doc × Option Err) × List Stage :=
  insertTracks doc ⟨ts, i, [], 0, none⟩

/-- `LiveSet.insert_return_tracks`. -/
def insertReturnTracks (doc : Doc) (ts : List RetIn) (i : Int) :
    (Doc × Option Err) × List Stage :=
  insertTracks doc ⟨[], 0, ts, i, none⟩

/-- Python sequence-index resolution: non-negative indices address from the
front, negative ones from the back; anything else raises `IndexError`. -/
def pyIdx (n : Nat) (i : Int) : Option Nat :=
  if 0 ≤ i then
    if i < (n : Int) then some i.toNat else none
  else
    if -(n : Int) ≤ i then some (n + i).toNat else none

/-- Remove the j-th element satisfying `p` (the `remove` call on the
`Tracks` element removes the looked-up child by identity). -/
def removeNthMatching (p : α → Bool) : Nat → List α → List α
  | _, [] => []
  | j, x :: xs =>
    if p x then
      match j with
      | 0 => xs
      | j' + 1 => x :: removeNthMatching p j' xs
    else
      x :: removeNthMatching p j xs

/-- `LiveSet.delete_primary_track`: look up `self.primary_tracks[index]`
and remove its element from the `Tracks` element; nothing else changes. -/
def deletePrimaryTrack (doc : Doc) (i : Int) : Doc × Option Err :=
  let n := (doc.tracks.filter (fun t => !isRet t)).length
  match pyIdx n i with
  | none => (doc, some .indexError)
  | some j =>
    ({ doc with tracks := removeNthMatching (fun t => !isRet t) j doc.tracks }, none)

/-- `LiveSet.delete_return_track`: look up `self.return_tracks[index]`
(which first builds every return-track context, reading `SendsPre`) and
remove its element from the `Tracks` element; the send lists and `SendsPre`
are not touched. -/
def deleteReturnTrack (doc : Doc) (i : Int) : Doc × Option Err :=
  match returnTracksLen doc with
  | none => (doc, some .indexError)
  | some n =>
    match pyIdx n i with
    | none => (doc, some .indexError)
    | some j => ({ doc with tracks := removeNthMatching isRet j doc.tracks }, none)

/-- The exact XML prolog line written verbatim by
`AbletonDocumentObject.write`, as a character list (the model works on the
decompressed byte stream; the gzip codec is an external collaborator and is
assumed lossless, as the repository test asserts on decompressed text). -/
def prologChars : List Char := "<?xml version=\"1.0\" encoding=\"UTF-8\"?>\n".toList

/-- Trailing characters that an XML parser accepts and discards after the
root element. -/
def isXmlWs (c : Char) : Bool := c = ' ' || c = '\n' || c = '\t' || c = '\r'

/-- Drop trailing whitespace from a byte stream. -/
def dropTrailingWs (l : List Char) : List Char :=
  (l.reverse.dropWhile isXmlWs).reverse

/-- Acceptance check on the serialized tree body.  Modelled from the spec:
the external parse collaborator of section 1 accepts a well-formed tree
whose root tag is the fixed wrapper `Ableton` (the one-nested-element check
of `AbletonDocumentObject.__init__` is abstracted into this predicate), and
reserializes it with byte-for-byte fidelity, so the parsed tree is
represented by the body bytes themselves. -/
def bodyOk (body : List Char) : Bool :=
  decide (body ≠ []) && "<Ableton>".toList.isPrefixOf body
    && "</Ableton>".toList.isSuffixOf body

/-- Modelled from the spec: `parse(bytes)` for a decompressed document
stream whose prolog is the standard one (a conservative model of the
external parser: it accepts at least these streams, which suffices for the
statements below).  The parser retains the tree — represented with
byte-for-byte fidelity by the body — and discards the prolog line and any
trailing whitespace. -/
def parseDoc (s : List Char) : Option (List Char) :=
  if prologChars.isPrefixOf s then
    let body := dropTrailingWs (s.drop prologChars.length)
    if bodyOk body then some body else none
  else
    none

/-- `AbletonDocumentObject.write` on the decompressed stream: the verbatim
prolog, the serialized tree (byte-for-byte the body, per the external
codec contract), and one trailing newline. -/
def writeDoc (body : List Char) : List Char :=
  prologChars ++ body ++ ['\n']

/-- A non-blank send, standing for a holder parsed from a source set. -/
def exSend : Send := ⟨"0.5", minValueStr, "1", 100, 101⟩

/-- Holder with declared id 0. -/
def exHolder0 : TSH := ⟨0, false, exSend⟩

/-- Holder with declared id 1. -/
def exHolder1 : TSH := ⟨1, false, exSend⟩

/-- A concrete return-track element with the given id and send list. -/
def mkRetTrack (i : Int) (s : List TSH) : MixerTrack :=
  ⟨.ret, i, -1, -1, [], [], [], [], s, [], []⟩

/-- A concrete audio-track element with the given id and send list. -/
def mkAudioTrack (i : Int) (s : List TSH) : MixerTrack :=
  ⟨.audio, i, -1, -1, [], [], [], [], s, [], []⟩

/-- A well-formed document with two return tracks: every mixer track has
two send holders with ids 0 and 1, and `SendsPre` has two bools. -/
def docTwoReturns : Doc :=
  ⟨[mkRetTrack 1 [exHolder0, exHolder1], mkRetTrack 2 [exHolder0, exHolder1]],
    none, [⟨0, false⟩, ⟨1, true⟩], 10⟩

/-- A well-formed document with one return track. -/
def docOneReturn : Doc :=
  ⟨[mkRetTrack 1 [exHolder0]], none, [⟨0, false⟩], 50⟩

/-- A return track from a foreign set (source column 0, pre-fader), to be
inserted into `docOneReturn`. -/
def retInNew : RetIn := ⟨mkRetTrack 9 [exHolder0], 0, true⟩

/-- A document with no mixer tracks. -/
def docEmptyTracks : Doc := ⟨[], none, [], 0⟩

/-- A group track whose `TrackGroupId` equals its own original id. -/
def selfGroupTrack : MixerTrack :=
  ⟨.group, 7, 7, -1, [], [], [], [], [], [], []⟩

/-- A well-formed document with a single primary track. -/
def docOnePrimary : Doc := ⟨[mkAudioTrack 1 [exHolder0]], none, [⟨0, false⟩], 5⟩

/-- An incoming track whose only `PointeeId` reference (77) has no matching
definition in the batch. -/
def dangTrack : MixerTrack :=
  ⟨.audio, 3, -1, -1, [], [], [], [], [], [], [77]⟩

/-- The decompressed stream of C8 counterexample: standard prolog and a
valid body, but no trailing newline. -/
def streamNoNewline : List Char :=
  prologChars ++ "<Ableton><LiveSet /></Ableton>".toList

/-- All pointee-definition ids of a batch, in walk order. -/
def allDefs (es : List PtElem) : List Int := (es.map PtElem.defs).flatten

/-- All `PointeeId` reference values of a batch, in walk order. -/
def allRefs (es : List PtElem) : List Int := (es.map PtElem.refs).flatten

/-- A well-formed document with one primary and one return track. -/
def docPrimAndRet : Doc :=
  ⟨[mkAudioTrack 1 [exHolder0], mkRetTrack 2 [exHolder0]], none, [⟨0, false⟩], 7⟩

/-- The list `[n, n + 1, ..., n + k - 1]` of `k` consecutive integers. -/
def intRange (n : Int) : Nat → List Int
  | 0 => []
  | k + 1 => n :: intRange (n + 1) k

/-- The pair of the attributes untouched by the send-matrix
synchronization. -/
def idKind (t : MixerTrack) : Int × TKind := (t.id, t.kind)

/-- The ids a document's mixer tracks declare, in document order. -/
def mixerIds (doc : Doc) : List Int := doc.tracks.map MixerTrack.id

/-- `max(0, all existing mixer-track ids)` as computed by
`_update_track_ids`. -/
def maxTrackId (doc : Doc) : Int := (doc.tracks.map MixerTrack.id).foldl max 0

/-- A list of ids viewed as a multiset. -/
def msOf (l : List Int) : Multiset Int := l

/-- The track-order check of `LiveSet.__init__`: once a `ReturnTrack` is
seen, every later element must be a `ReturnTrack`. -/
def orderedTracks : List MixerTrack → Bool
  | [] => true
  | t :: ts => if isRet t then ts.all isRet else orderedTracks ts

/-- C1: the code does not mirror insertion on deletion.  Evaluating
`delete_return_track(0)` on a well-formed document with two return tracks
succeeds but leaves the remaining mixer track with two send holders and
`SendsPre` with two bools, where the claim requires one of each. -/
theorem c1_delete_return_track_behavior :
    (deleteReturnTrack docTwoReturns 0).2 = none ∧
    ((deleteReturnTrack docTwoReturns 0).1.tracks.filter isRet).length = 1 ∧
    ((deleteReturnTrack docTwoReturns 0).1.tracks.map (fun t => t.sends.length)) = [2] ∧
    (deleteReturnTrack docTwoReturns 0).1.sendsPre.length = 2 ∧
    (deleteReturnTrack docTwoReturns 0).1.sendsPre = docTwoReturns.sendsPre := by
  decide

/-- C2: the renumber loop of `SendsPre.insert_send_pre_bool` reads and
writes position `index` (the freshly inserted bool) instead of position
`i`, so inserting a return track at column 0 of a document with one
existing return track succeeds but produces `SendsPre` declared ids
`[1, 0]` instead of `[0, 1]` (the send-holder lists are renumbered
correctly, and all lengths match). -/
theorem c2_sendspre_id_misnumbering :
    (insertReturnTracks docOneReturn [retInNew] 0).1.2 = none ∧
    ((insertReturnTracks docOneReturn [retInNew] 0).1.1.sendsPre.map SendPreBool.id)
      = [1, 0] ∧
    ((insertReturnTracks docOneReturn [retInNew] 0).1.1.tracks.map
      (fun t => t.sends.map TSH.id)) = [[0, 1], [0, 1]] := by
  decide

/-- C5 counterexample: on a successful run both remap stages execute, and
the trace shows the pointee remap strictly before the track-id remap,
contradicting the claimed order (track ids first, then pointee ids). -/
theorem c5_stage_order_counterexample :
    (insertReturnTracks docOneReturn [retInNew] 0).2 =
      [Stage.deepCopy, Stage.pointeeRemap, Stage.trackIdRemap, Stage.sendSync,
        Stage.splice] ∧
    ((insertReturnTracks docOneReturn [retInNew] 0).2.indexOf Stage.pointeeRemap)
      < ((insertReturnTracks docOneReturn [retInNew] 0).2.indexOf Stage.trackIdRemap) := by
  decide

/-- C6 counterexample: a batch consisting of a single group track whose
`TrackGroupId` equals its own original id (so the group id is not the
original id of any *other* batch track) is accepted, and the group id is
rewritten to the track's own new id, where the claim requires a failure. -/
theorem c6_self_group_counterexample :
    selfGroupTrack.trackGroupId = selfGroupTrack.id ∧
    (insertPrimaryTracks docEmptyTracks [selfGroupTrack] 0).1.2 = none ∧
    ((insertPrimaryTracks docEmptyTracks [selfGroupTrack] 0).1.1.tracks.map
      MixerTrack.trackGroupId) = [1] ∧
    ((insertPrimaryTracks docEmptyTracks [selfGroupTrack] 0).1.1.tracks.map
      MixerTrack.id) = [1] := by
  decide

/-- C9 counterexample: on a document with one primary track the index `-2`
is below the count, yet `delete_primary_track(-2)` raises (Python sequence
indexing also raises for negative indices whose absolute value exceeds the
count), contradicting the final clause of the claim. -/
theorem c9_negative_index_counterexample :
    (deletePrimaryTrack docOnePrimary (-2)).2 = some Err.indexError ∧
    (-2 : Int) < ((docOnePrimary.tracks.filter (fun t => !isRet t)).length : Int) := by
  decide

/-- C8 counterexample: a parseable document stream that lacks the single
trailing newline is accepted by the reader, but writing the parsed
document back appends the newline, so the output differs from the original
byte stream. -/
theorem c8_roundtrip_counterexample :
    parseDoc streamNoNewline = some ("<Ableton><LiveSet /></Ableton>".toList) ∧
    writeDoc ("<Ableton><LiveSet /></Ableton>".toList) ≠ streamNoNewline := by
  decide

/-- Positions strictly before `start` are not touched by the holder
renumber loop. -/
theorem renumberSendsAux_getElem_lt (start : Nat) :
    ∀ (l : List TSH) (pos : Nat) (r : List TSH),
      renumberSendsAux start l pos = .ok r →
      ∀ k : Nat, pos + k + 1 ≤ start → r[k]? = l[k]? := by
  intro l
  induction l with
  | nil =>
    intro pos r h k _
    simp only [renumberSendsAux] at h
    cases h
    rfl
  | cons hd tl ih =>
    intro pos r h k hk
    simp only [renumberSendsAux] at h
    by_cases hs : start ≤ pos
    · omega
    · simp only [if_neg hs] at h
      cases hrec : renumberSendsAux start tl (pos + 1) with
      | error e => rw [hrec] at h; simp [Except.map] at h
      | ok r' =>
        rw [hrec] at h
        simp only [Except.map] at h
        cases h
        cases k with
        | zero => simp
        | succ k' =>
          simp only [List.getElem?_cons_succ]
          exact ih (pos + 1) r' hrec k' (by omega)

/-- The element inserted by `pyInsert` at an in-range index sits at that
index. -/
theorem pyInsert_getElem (l : List α) (i : Nat) (a : α) (hi : i ≤ l.length) :
    (pyInsert l i a)[i]? = some a := by
  unfold pyInsert
  rw [List.append_assoc, List.getElem?_append_right (by simp [List.length_take])]
  simp [List.length_take, Nat.min_eq_left hi]

/-- C10: every blank send holder created by the `add_blank_send` helper of
`insert_tracks` (used both when extending existing tracks and when
rebuilding inserted tracks) carries `EnabledByUser = false` and a send
initialized with `Manual = 0.0003162277571` (not `0`), controller range
`Min = 0.0003162277571`, `Max = 1`, and automation/modulation target ids
equal to the two counter values consumed: the helper reads the document's
`NextPointeeId` twice and leaves it advanced by two. -/
theorem c10_blank_send_init (index : Nat) (sends : List TSH) (c : Int) (s' : List TSH)
    (h : (addBlankSendSt index sends c).1 = .ok s') (hi : index ≤ sends.length) :
    (addBlankSendSt index sends c).2 = c + 2 ∧
    s'[index]? = some ⟨(index : Int), false,
      ⟨minValueStr, minValueStr, "1", c, c + 1⟩⟩ ∧
    minValueStr ≠ "0" := by
  refine ⟨rfl, ?_, by decide⟩
  simp only [addBlankSendSt, insertSend] at h
  have := renumberSendsAux_getElem_lt (index + 1) _ 0 s' h index (by omega)
  rw [this, pyInsert_getElem sends index _ hi]
  rfl

/-- Witness for C10 at a concrete input. -/
theorem c10_blank_send_init_witness :
    (addBlankSendSt 0 [] 50).2 = 50 + 2 ∧
    (([⟨0, false, ⟨minValueStr, minValueStr, "1", 50, 51⟩⟩] : List TSH))[0]? =
      some ⟨(0 : Int), false, ⟨minValueStr, minValueStr, "1", 50, 50 + 1⟩⟩ ∧
    minValueStr ≠ "0" :=
  c10_blank_send_init 0 [] 50 _ rfl (by decide)

/-- The keys recorded by phase one over one element are its old ids. -/
theorem assignDefsList_keys (ds : List Int) :
    ∀ n : Int, ((assignDefsList ds n).1.map Prod.fst) = ds := by
  induction ds with
  | nil => intro n; rfl
  | cons d ds ih =>
    intro n
    simp only [assignDefsList, List.map_cons, List.cons_inj_right]
    exact ih (n + 1)

/-- The keys recorded by phase one over a batch are all its old ids. -/
theorem assignDefsElems_keys (es : List PtElem) :
    ∀ n : Int, ((assignDefsElems es n).1.map Prod.fst) = allDefs es := by
  induction es with
  | nil => intro n; rfl
  | cons e es ih =>
    intro n
    simp only [assignDefsElems, List.map_append, allDefs, List.map_cons,
      List.flatten_cons]
    rw [assignDefsList_keys, ih]
    rfl

/-- Phase one rewrites only the defs: the reference lists are untouched. -/
theorem assignDefsElems_refs (es : List PtElem) :
    ∀ n : Int, ((assignDefsElems es n).2.1.map PtElem.refs) = es.map PtElem.refs := by
  induction es with
  | nil => intro n; rfl
  | cons e es ih =>
    intro n
    simp only [assignDefsElems, List.map_cons, List.cons_inj_right]
    exact ih _

/-- `dictGet` misses exactly the keys absent from the association list. -/
theorem dictGet_eq_none_iff (m : List (Int × Int)) (k : Int) :
    dictGet m k = none ↔ k ∉ m.map Prod.fst := by
  unfold dictGet
  rw [Option.map_eq_none', List.find?_eq_none]
  simp only [decide_eq_true_eq]
  constructor
  · intro h hk
    rcases List.mem_map.mp hk with ⟨p, hp, he⟩
    exact (h p (List.mem_reverse.mpr hp)) he
  · intro h p hp he
    exact h (List.mem_map.mpr ⟨p, List.mem_reverse.mp hp, he⟩)

/-- A reference list containing a value outside the mapping makes phase two
fail with an unknown-pointee error. -/
theorem remapRefList_dangling (m : List (Int × Int)) :
    ∀ refs : List Int, (∃ v ∈ refs, dictGet m v = none) →
      ∃ n : Int, remapRefList m refs = .error (.unknownPointee n) := by
  intro refs
  induction refs with
  | nil => rintro ⟨v, hv, _⟩; cases hv
  | cons r rs ih =>
    rintro ⟨v, hv, hnone⟩
    cases hget : dictGet m r with
    | none => exact ⟨r, by simp [remapRefList, hget]⟩
    | some w =>
      rcases List.mem_cons.mp hv with rfl | hv
      · rw [hget] at hnone
        cases hnone
      · obtain ⟨n, hn⟩ := ih ⟨v, hv, hnone⟩
        refine ⟨n, ?_⟩
        simp only [remapRefList, hget, hn]
        rfl

/-- Any failure of phase two is an unknown-pointee error. -/
theorem remapRefList_error_form (m : List (Int × Int)) :
    ∀ refs e, remapRefList m refs = .error e → ∃ n : Int, e = .unknownPointee n := by
  intro refs
  induction refs with
  | nil => intro e h; cases h
  | cons r rs ih =>
    intro e h
    simp only [remapRefList] at h
    cases hget : dictGet m r with
    | none =>
      rw [hget] at h
      cases h
      exact ⟨r, rfl⟩
    | some w =>
      rw [hget] at h
      cases hrec : remapRefList m rs with
      | error e2 =>
        rw [hrec] at h
        simp only [Except.map] at h
        cases h
        exact ih _ hrec
      | ok l =>
        rw [hrec] at h
        simp only [Except.map] at h
        cases h

/-- A batch containing a dangling reference makes the per-element phase two
fail with an unknown-pointee error. -/
theorem remapRefsElems_dangling (m : List (Int × Int)) :
    ∀ es : List PtElem, (∃ v, (∃ e ∈ es, v ∈ e.refs) ∧ dictGet m v = none) →
      ∃ n : Int, remapRefsElems m es = .error (.unknownPointee n) := by
  intro es
  induction es with
  | nil => rintro ⟨v, ⟨e, he, _⟩, _⟩; cases he
  | cons e es ih =>
    rintro ⟨v, ⟨e2, he2, hv⟩, hnone⟩
    cases hhead : remapRefList m e.refs with
    | error err =>
      obtain ⟨n, hn⟩ := remapRefList_error_form m e.refs err hhead
      refine ⟨n, ?_⟩
      simp only [remapRefsElems, hhead, hn]
      rfl
    | ok l =>
      rcases List.mem_cons.mp he2 with rfl | he2
      · obtain ⟨n, hn⟩ := remapRefList_dangling m e2.refs ⟨v, hv, hnone⟩
        rw [hn] at hhead
        cases hhead
      · obtain ⟨n, hn⟩ := ih ⟨v, ⟨e2, he2, hv⟩, hnone⟩
        refine ⟨n, ?_⟩
        simp only [remapRefsElems, hhead, hn]
        rfl

/-- A batch with a reference whose old id is not among the batch's
definition ids makes `_update_pointee_ids` fail with an unknown-pointee
error. -/
theorem updatePointeeIds_dangling (es : List PtElem) (next : Int)
    (h : ∃ v ∈ allRefs es, v ∉ allDefs es) :
    ∃ n : Int, updatePointeeIds es next = .error (.unknownPointee n) := by
  obtain ⟨v, hv, hnd⟩ := h
  simp only [allRefs, List.mem_flatten, List.mem_map] at hv
  obtain ⟨l, ⟨e, he, rfl⟩, hvl⟩ := hv
  have hkeys : dictGet (assignDefsElems es next).1 v = none := by
    rw [dictGet_eq_none_iff, assignDefsElems_keys]
    exact hnd
  have hrefs : ∃ e2 ∈ (assignDefsElems es next).2.1, v ∈ e2.refs := by
    have hmap := assignDefsElems_refs es next
    have hm : e.refs ∈ (assignDefsElems es next).2.1.map PtElem.refs := by
      rw [hmap]
      exact List.mem_map_of_mem PtElem.refs he
    rcases List.mem_map.mp hm with ⟨e2, he2, hre⟩
    exact ⟨e2, he2, hre ▸ hvl⟩
  obtain ⟨e2, he2, hv2⟩ := hrefs
  obtain ⟨n, hn⟩ := remapRefsElems_dangling (assignDefsElems es next).1
    (assignDefsElems es next).2.1 ⟨v, ⟨e2, he2, hv2⟩, hkeys⟩
  refine ⟨n, ?_⟩
  simp only [updatePointeeIds, hn]
  rfl

/-- C4: with valid indices, a batch containing a `PointeeId` reference
whose old id is not among the batch's pointee-definition ids makes
`insert_tracks` fail during the pointee remap with an unknown-pointee
error, and the document — in particular its `NextPointeeId` counter, which
is persisted only after the whole remap succeeds — is left unchanged. -/
theorem c4_dangling_pointee_remap (doc : Doc) (a : Args) (r0 : Nat)
    (hr0 : returnTracksLen doc = some r0)
    (hp1 : 0 ≤ a.primaryIndex)
    (hp2 : a.primaryIndex ≤ ((doc.tracks.filter (fun t => !isRet t)).length : Int))
    (hq1 : 0 ≤ a.returnIndex)
    (hq2 : a.returnIndex ≤ (r0 : Int))
    (hd : ∃ v ∈ allRefs (batchPt a), v ∉ allDefs (batchPt a)) :
    ∃ n : Int,
      insertTracks doc a =
        ((doc, some (Err.unknownPointee n)), [Stage.deepCopy, Stage.pointeeRemap]) ∧
      (insertTracks doc a).1.1.nextPointeeId = doc.nextPointeeId := by
  obtain ⟨n, hn⟩ := updatePointeeIds_dangling (batchPt a) doc.nextPointeeId hd
  have hc1 : ¬ a.primaryIndex < 0 := by omega
  have hc2 : ¬ ((doc.tracks.filter (fun t => !isRet t)).length : Int) < a.primaryIndex := by
    omega
  have hc3 : ¬ a.returnIndex < 0 := by omega
  have hc4 : ¬ (r0 : Int) < a.returnIndex := by omega
  have hmain : insertTracks doc a =
      ((doc, some (Err.unknownPointee n)), [Stage.deepCopy, Stage.pointeeRemap]) := by
    simp only [insertTracks, hr0]
    rw [if_neg hc1, if_neg hc2, if_neg hc3, if_neg hc4, hn]
  exact ⟨n, hmain, by rw [hmain]⟩

/-- Witness for C4 at a concrete input: `dangTrack` carries the reference
77 with no definition in the batch. -/
theorem c4_dangling_pointee_remap_witness :
    ∃ n : Int,
      insertTracks docOnePrimary ⟨[dangTrack], 0, [], 0, none⟩ =
        ((docOnePrimary, some (Err.unknownPointee n)),
          [Stage.deepCopy, Stage.pointeeRemap]) ∧
      (insertTracks docOnePrimary ⟨[dangTrack], 0, [], 0, none⟩).1.1.nextPointeeId =
        docOnePrimary.nextPointeeId :=
  c4_dangling_pointee_remap docOnePrimary ⟨[dangTrack], 0, [], 0, none⟩ 0
    (by decide) (by decide) (by decide) (by decide) (by decide)
    ⟨77, by decide, by decide⟩

/-- Python index resolution fails exactly for indices at or past the count
and for negative indices below minus the count. -/
theorem pyIdx_eq_none_iff (n : Nat) (i : Int) :
    pyIdx n i = none ↔ ((n : Int) ≤ i ∨ i < -(n : Int)) := by
  unfold pyIdx
  by_cases h1 : 0 ≤ i
  · rw [if_pos h1]
    by_cases h2 : i < (n : Int)
    · rw [if_pos h2]
      exact iff_of_false (by simp) (by omega)
    · rw [if_neg h2]
      exact iff_of_true rfl (by omega)
  · rw [if_neg h1]
    by_cases h3 : -(n : Int) ≤ i
    · rw [if_pos h3]
      exact iff_of_false (by simp) (by omega)
    · rw [if_neg h3]
      exact iff_of_true rfl (by omega)

/-- For an in-range negative index, Python resolution coincides with the
shifted non-negative index. -/
theorem pyIdx_neg_shift (n : Nat) (i : Int) (h1 : -(n : Int) ≤ i) (h2 : i < 0) :
    pyIdx n i = pyIdx n ((n : Int) + i) := by
  unfold pyIdx
  rw [if_neg (by omega), if_pos h1, if_pos (by omega), if_pos (by omega)]

/-- In-range indices resolve. -/
theorem pyIdx_some_of_inrange (n : Nat) (i : Int) (h1 : -(n : Int) ≤ i)
    (h2 : i < (n : Int)) : ∃ j, pyIdx n i = some j := by
  unfold pyIdx
  by_cases h3 : 0 ≤ i
  · rw [if_pos h3, if_pos h2]
    exact ⟨_, rfl⟩
  · rw [if_neg h3, if_pos h1]
    exact ⟨_, rfl⟩

/-- C9 (amended): both delete operations accept negative indices through
Python sequence indexing — an in-range negative index behaves exactly like
the index shifted by the count — they succeed exactly on indices `i` with
`-count ≤ i < count`, and they raise both for indices at or past the count
and for negative indices whose absolute value exceeds the count. -/
theorem c9_delete_index_semantics (doc : Doc) (i : Int) (pn rn : Nat)
    (hpn : pn = (doc.tracks.filter (fun t => !isRet t)).length)
    (hrn : returnTracksLen doc = some rn) :
    ((-(pn : Int) ≤ i ∧ i < 0) →
        deletePrimaryTrack doc i = deletePrimaryTrack doc ((pn : Int) + i)) ∧
    (((pn : Int) ≤ i ∨ i < -(pn : Int)) →
        deletePrimaryTrack doc i = (doc, some Err.indexError)) ∧
    ((-(pn : Int) ≤ i ∧ i < (pn : Int)) → (deletePrimaryTrack doc i).2 = none) ∧
    ((-(rn : Int) ≤ i ∧ i < 0) →
        deleteReturnTrack doc i = deleteReturnTrack doc ((rn : Int) + i)) ∧
    (((rn : Int) ≤ i ∨ i < -(rn : Int)) →
        deleteReturnTrack doc i = (doc, some Err.indexError)) ∧
    ((-(rn : Int) ≤ i ∧ i < (rn : Int)) → (deleteReturnTrack doc i).2 = none) := by
  subst hpn
  refine ⟨?_, ?_, ?_, ?_, ?_, ?_⟩
  · rintro ⟨h1, h2⟩
    simp only [deletePrimaryTrack]
    rw [pyIdx_neg_shift _ i h1 h2]
  · intro h
    simp only [deletePrimaryTrack]
    rw [(pyIdx_eq_none_iff _ i).mpr h]
  · rintro ⟨h1, h2⟩
    obtain ⟨j, hj⟩ := pyIdx_some_of_inrange _ i h1 h2
    simp only [deletePrimaryTrack]
    rw [hj]
  · rintro ⟨h1, h2⟩
    simp only [deleteReturnTrack, hrn]
    rw [pyIdx_neg_shift rn i h1 h2]
  · intro h
    simp only [deleteReturnTrack, hrn]
    rw [(pyIdx_eq_none_iff rn i).mpr h]
  · rintro ⟨h1, h2⟩
    obtain ⟨j, hj⟩ := pyIdx_some_of_inrange rn i h1 h2
    simp only [deleteReturnTrack, hrn]
    rw [hj]

/-- Witness for C9 at a concrete input: index `-1` on a document with one
primary and one return track. -/
theorem c9_delete_index_semantics_witness :
    ((-((1 : Nat) : Int) ≤ (-1 : Int) ∧ (-1 : Int) < 0) →
        deletePrimaryTrack docPrimAndRet (-1) =
          deletePrimaryTrack docPrimAndRet (((1 : Nat) : Int) + -1)) ∧
    ((((1 : Nat) : Int) ≤ (-1 : Int) ∨ (-1 : Int) < -((1 : Nat) : Int)) →
        deletePrimaryTrack docPrimAndRet (-1) = (docPrimAndRet, some Err.indexError)) ∧
    ((-((1 : Nat) : Int) ≤ (-1 : Int) ∧ (-1 : Int) < ((1 : Nat) : Int)) →
        (deletePrimaryTrack docPrimAndRet (-1)).2 = none) ∧
    ((-((1 : Nat) : Int) ≤ (-1 : Int) ∧ (-1 : Int) < 0) →
        deleteReturnTrack docPrimAndRet (-1) =
          deleteReturnTrack docPrimAndRet (((1 : Nat) : Int) + -1)) ∧
    ((((1 : Nat) : Int) ≤ (-1 : Int) ∨ (-1 : Int) < -((1 : Nat) : Int)) →
        deleteReturnTrack docPrimAndRet (-1) = (docPrimAndRet, some Err.indexError)) ∧
    ((-((1 : Nat) : Int) ≤ (-1 : Int) ∧ (-1 : Int) < ((1 : Nat) : Int)) →
        (deleteReturnTrack docPrimAndRet (-1)).2 = none) :=
  c9_delete_index_semantics docPrimAndRet (-1) 1 1 (by decide) (by decide)

/-- Stripping the single trailing newline after a body that ends with the
root closing tag recovers the body. -/
theorem dropTrailingWs_close_newline (b : List Char) :
    dropTrailingWs ((b ++ ['>']) ++ ['\n']) = b ++ ['>'] := by
  unfold dropTrailingWs
  simp [List.dropWhile, isXmlWs]

/-- C8 (amended): for every valid document byte stream in native form —
the exact prolog line, then the serialized body (which ends with the root
closing tag and is accepted by the reader), then a single trailing
newline — parsing and immediately writing back reproduces the original
byte stream exactly. -/
theorem c8_native_roundtrip (b body : List Char)
    (hbody : body = b ++ ['>']) (hok : bodyOk body = true) :
    (parseDoc (prologChars ++ (body ++ ['\n']))).map writeDoc =
      some (prologChars ++ (body ++ ['\n'])) := by
  subst hbody
  unfold parseDoc
  rw [if_pos ?hpre]
  case hpre =>
    rw [List.isPrefixOf_iff_prefix]
    exact List.prefix_append _ _
  rw [List.drop_left, dropTrailingWs_close_newline, if_pos hok]
  simp [writeDoc]

/-- Witness for C8 at a concrete native stream. -/
theorem c8_native_roundtrip_witness :
    (parseDoc (prologChars ++ ("<Ableton><LiveSet /></Ableton>".toList ++ ['\n']))).map
        writeDoc =
      some (prologChars ++ ("<Ableton><LiveSet /></Ableton>".toList ++ ['\n'])) :=
  c8_native_roundtrip "<Ableton><LiveSet /></Ableton".toList
    "<Ableton><LiveSet /></Ableton>".toList (by decide) (by decide)

theorem intRange_length : ∀ (k : Nat) (n : Int), (intRange n k).length = k := by
  intro k
  induction k with
  | zero => intro n; rfl
  | succ k ih => intro n; simp [intRange, ih]

theorem mem_intRange {x : Int} :
    ∀ (k : Nat) (n : Int), x ∈ intRange n k ↔ n ≤ x ∧ x < n + k := by
  intro k
  induction k with
  | zero =>
    intro n
    simp only [intRange, List.not_mem_nil, false_iff, not_and, not_lt]
    omega
  | succ k ih =>
    intro n
    simp only [intRange, List.mem_cons, ih]
    omega

theorem intRange_nodup : ∀ (k : Nat) (n : Int), (intRange n k).Nodup := by
  intro k
  induction k with
  | zero => intro n; simp [intRange]
  | succ k ih =>
    intro n
    simp only [intRange, List.nodup_cons]
    refine ⟨?_, ih (n + 1)⟩
    rw [mem_intRange]
    omega

theorem intRange_getElem? :
    ∀ (k : Nat) (n : Int) (i : Nat), i < k → (intRange n k)[i]? = some (n + i) := by
  intro k
  induction k with
  | zero => intro n i hi; omega
  | succ k ih =>
    intro n i hi
    cases i with
    | zero => simp [intRange]
    | succ i =>
      simp only [intRange, List.getElem?_cons_succ]
      rw [ih (n + 1) i (by omega)]
      congr 1
      omega

theorem exceptMapM_ok_length (f : α → Except Err β) :
    ∀ (l : List α) (r : List β), exceptMapM f l = .ok r → r.length = l.length := by
  intro l
  induction l with
  | nil => intro r h; cases h; rfl
  | cons x xs ih =>
    intro r h
    simp only [exceptMapM] at h
    cases hx : f x with
    | error e => rw [hx] at h; cases h
    | ok y =>
      rw [hx] at h
      cases hxs : exceptMapM f xs with
      | error e => rw [hxs] at h; cases h
      | ok ys =>
        rw [hxs] at h
        cases h
        simp [ih ys hxs]

theorem exceptMapM_ok_getElem? (f : α → Except Err β) :
    ∀ (l : List α) (r : List β), exceptMapM f l = .ok r →
      ∀ (i : Nat) (x : α), l[i]? = some x → ∃ y, f x = .ok y ∧ r[i]? = some y := by
  intro l
  induction l with
  | nil => intro r h i x hx; cases hx
  | cons a as ih =>
    intro r h i x hx
    simp only [exceptMapM] at h
    cases ha : f a with
    | error e => rw [ha] at h; cases h
    | ok y =>
      rw [ha] at h
      cases has : exceptMapM f as with
      | error e => rw [has] at h; cases h
      | ok ys =>
        rw [has] at h
        cases h
        cases i with
        | zero =>
          rw [List.getElem?_cons_zero] at hx
          cases hx
          exact ⟨y, ha, List.getElem?_cons_zero⟩
        | succ i =>
          simp only [List.getElem?_cons_succ] at hx ⊢
          exact ih ys has i x hx

theorem exceptMapM_error_of_mem (f : α → Except Err β) :
    ∀ l : List α, (∃ x ∈ l, ∃ e, f x = .error e) →
      ∃ e, exceptMapM f l = .error e := by
  intro l
  induction l with
  | nil => rintro ⟨x, hx, _⟩; cases hx
  | cons a as ih =>
    rintro ⟨x, hx, e, he⟩
    cases ha : f a with
    | error e2 => exact ⟨e2, by simp only [exceptMapM, ha]; rfl⟩
    | ok y =>
      rcases List.mem_cons.mp hx with rfl | hx
      · rw [ha] at he; cases he
      · obtain ⟨e2, he2⟩ := ih ⟨x, hx, e, he⟩
        refine ⟨e2, ?_⟩
        simp only [exceptMapM, ha, he2]
        rfl

theorem assignTrackIds_fst (ts : List MixerTrack) :
    ∀ n : Int, (assignTrackIds ts n).1 = (ts.map MixerTrack.id).zip (intRange n ts.length) := by
  induction ts with
  | nil => intro n; rfl
  | cons t ts ih =>
    intro n
    simp only [assignTrackIds, List.map_cons, List.length_cons, intRange, List.zip_cons_cons,
      List.cons_inj_right]
    exact ih (n + 1)

theorem assignTrackIds_snd_length (ts : List MixerTrack) :
    ∀ n : Int, (assignTrackIds ts n).2.1.length = ts.length := by
  induction ts with
  | nil => intro n; rfl
  | cons t ts ih =>
    intro n
    simp only [assignTrackIds, List.length_cons, ih (n + 1)]

theorem assignTrackIds_snd_getElem? (ts : List MixerTrack) :
    ∀ (n : Int) (i : Nat) (t : MixerTrack), ts[i]? = some t →
      (assignTrackIds ts n).2.1[i]? = some { t with id := n + i } := by
  induction ts with
  | nil => intro n i t h; cases h
  | cons a as ih =>
    intro n i t h
    cases i with
    | zero =>
      rw [List.getElem?_cons_zero] at h
      cases h
      simp [assignTrackIds]
    | succ i =>
      simp only [List.getElem?_cons_succ] at h
      simp only [assignTrackIds, List.getElem?_cons_succ]
      rw [ih (n + 1) i t h]
      congr 2
      omega

/-- Behavior of the per-track phase two of `_update_track_ids` on success:
the id and kind are untouched, a negative group id is untouched, and a
non-negative group id forces a non-return kind and is rewritten through
the mapping. -/
theorem fixGroupAndRoutings_ok (m : List (Int × Int)) (t t' : MixerTrack)
    (h : fixGroupAndRoutings m t = .ok t') :
    t'.id = t.id ∧ t'.kind = t.kind ∧
    (t.trackGroupId < 0 → t'.trackGroupId = t.trackGroupId) ∧
    (0 ≤ t.trackGroupId →
      t.kind ≠ TKind.ret ∧ ∃ g, dictGet m t.trackGroupId = some g ∧ t'.trackGroupId = g) := by
  simp only [fixGroupAndRoutings] at h
  by_cases h1 : 0 ≤ t.trackGroupId
  · rw [if_pos h1] at h
    by_cases h2 : t.kind = TKind.ret
    · rw [if_pos h2] at h
      cases h
    · rw [if_neg h2] at h
      cases hget : dictGet m t.trackGroupId with
      | none => rw [hget] at h; cases h
      | some g =>
        rw [hget] at h
        cases h
        exact ⟨rfl, rfl, by omega, fun _ => ⟨h2, g, rfl, rfl⟩⟩
  · rw [if_neg h1] at h
    cases h
    exact ⟨rfl, rfl, fun _ => rfl, by omega⟩

/-- A non-negative group id on a return track raises. -/
theorem fixGroupAndRoutings_ret_error (m : List (Int × Int)) (t : MixerTrack)
    (h1 : 0 ≤ t.trackGroupId) (h2 : t.kind = TKind.ret) :
    fixGroupAndRoutings m t = .error Err.returnHasGroup := by
  simp only [fixGroupAndRoutings, if_pos h1, if_pos h2]
  rfl

/-- A non-negative group id outside the mapping raises. -/
theorem fixGroupAndRoutings_unknown_error (m : List (Int × Int)) (t : MixerTrack)
    (h1 : 0 ≤ t.trackGroupId) (h2 : t.kind ≠ TKind.ret)
    (h3 : dictGet m t.trackGroupId = none) :
    fixGroupAndRoutings m t = .error (Err.unknownGroup t.trackGroupId) := by
  simp only [fixGroupAndRoutings, if_pos h1, if_neg h2, h3]
  rfl

/-- A successful `dictGet` lookup returns a pair of the list. -/
theorem dictGet_eq_some_mem (m : List (Int × Int)) (k v : Int)
    (h : dictGet m k = some v) : (k, v) ∈ m := by
  unfold dictGet at h
  obtain ⟨p, hp, hv⟩ := Option.map_eq_some'.mp h
  have hk : p.1 = k := by
    have := List.find?_some hp
    exact of_decide_eq_true this
  have hm : p ∈ m := List.mem_reverse.mp (List.mem_of_find?_eq_some hp)
  have : p = (k, v) := by
    cases p
    simp only [Prod.mk.injEq]
    exact ⟨hk, hv⟩
  rw [← this]
  exact hm

/-- Success behavior of `_update_track_ids`: the batch keeps its length and
kinds, and the assigned ids are exactly `max(0, existing) + 1, + 2, ...` in
batch order. -/
theorem updateTrackIds_ok_spec (ex : List Int) (ts ts' : List MixerTrack)
    (h : updateTrackIds ex ts = .ok ts') :
    ts'.length = ts.length ∧
    ts'.map MixerTrack.id = intRange (ex.foldl max 0 + 1) ts.length ∧
    ts'.map MixerTrack.kind = ts.map MixerTrack.kind := by
  simp only [updateTrackIds] at h
  have hlen2 := exceptMapM_ok_length _ _ _ h
  rw [assignTrackIds_snd_length] at hlen2
  refine ⟨hlen2, ?_, ?_⟩
  · apply List.ext_getElem?
    intro i
    by_cases hi : i < ts.length
    · cases ht : ts[i]? with
      | none =>
        rw [List.getElem?_eq_none_iff] at ht
        omega
      | some t =>
        have hasn := assignTrackIds_snd_getElem? ts (ex.foldl max 0 + 1) i t ht
        obtain ⟨y, hy, hyi⟩ := exceptMapM_ok_getElem? _ _ _ h i _ hasn
        obtain ⟨hid, _, _, _⟩ := fixGroupAndRoutings_ok _ _ _ hy
        rw [List.getElem?_map, hyi, intRange_getElem? ts.length _ i hi]
        simp [hid]
    · rw [List.getElem?_eq_none (by simp [hlen2]; omega),
        List.getElem?_eq_none (by rw [intRange_length]; omega)]
  · apply List.ext_getElem?
    intro i
    by_cases hi : i < ts.length
    · cases ht : ts[i]? with
      | none =>
        rw [List.getElem?_eq_none_iff] at ht
        omega
      | some t =>
        have hasn := assignTrackIds_snd_getElem? ts (ex.foldl max 0 + 1) i t ht
        obtain ⟨y, hy, hyi⟩ := exceptMapM_ok_getElem? _ _ _ h i _ hasn
        obtain ⟨_, hkind, _, _⟩ := fixGroupAndRoutings_ok _ _ _ hy
        rw [List.getElem?_map, hyi, List.getElem?_map, ht]
        simp [hkind]
    · rw [List.getElem?_eq_none (by simp [hlen2]; omega),
        List.getElem?_eq_none (by simp; omega)]

/-- The keys of the track-id mapping are the original batch ids. -/
theorem trackIdMap_keys (ts : List MixerTrack) (n : Int) :
    ((assignTrackIds ts n).1.map Prod.fst) = ts.map MixerTrack.id := by
  rw [assignTrackIds_fst]
  exact List.map_fst_zip _ _ (by rw [List.length_map, intRange_length])

/-- C6 (amended): during `insert_tracks`, for every incoming mixer track
whose `TrackGroupId` is non-negative, `_update_track_ids` fails if the
track is a return track; it fails if the group id is not the original id
of a track of the same batch (possibly the track itself — the old-to-new
mapping contains every batch track, so a track whose group id equals its
own original id is accepted); otherwise the group id is rewritten to the
newly assigned id of a batch track whose original id it named. -/
theorem c6_group_id_remap (ex : List Int) (ts ts' : List MixerTrack) :
    ((∃ t ∈ ts, 0 ≤ t.trackGroupId ∧ t.kind = TKind.ret) →
        ∃ e, updateTrackIds ex ts = .error e) ∧
    ((∃ t ∈ ts, 0 ≤ t.trackGroupId ∧ t.trackGroupId ∉ ts.map MixerTrack.id) →
        ∃ e, updateTrackIds ex ts = .error e) ∧
    (updateTrackIds ex ts = .ok ts' →
      ∀ (i : Nat) (t : MixerTrack), ts[i]? = some t → 0 ≤ t.trackGroupId →
        ∃ (j : Nat) (tj tj' ti' : MixerTrack),
          ts[j]? = some tj ∧ tj.id = t.trackGroupId ∧
          ts'[j]? = some tj' ∧ ts'[i]? = some ti' ∧
          ti'.trackGroupId = tj'.id) := by
  refine ⟨?_, ?_, ?_⟩
  · rintro ⟨t, ht, h1, h2⟩
    obtain ⟨i, hi⟩ := List.mem_iff_getElem?.mp ht
    have hasn := assignTrackIds_snd_getElem? ts (ex.foldl max 0 + 1) i t hi
    have hmem : ({ t with id := ex.foldl max 0 + 1 + i } : MixerTrack) ∈
        (assignTrackIds ts (ex.foldl max 0 + 1)).2.1 :=
      List.mem_iff_getElem?.mpr ⟨i, hasn⟩
    obtain ⟨e, he⟩ := exceptMapM_error_of_mem (fixGroupAndRoutings
        (assignTrackIds ts (ex.foldl max 0 + 1)).1)
      (assignTrackIds ts (ex.foldl max 0 + 1)).2.1
      ⟨_, hmem, _, fixGroupAndRoutings_ret_error _ _ h1 h2⟩
    exact ⟨e, by simp only [updateTrackIds]; exact he⟩
  · rintro ⟨t, ht, h1, h2⟩
    obtain ⟨i, hi⟩ := List.mem_iff_getElem?.mp ht
    have hasn := assignTrackIds_snd_getElem? ts (ex.foldl max 0 + 1) i t hi
    have hmem : ({ t with id := ex.foldl max 0 + 1 + i } : MixerTrack) ∈
        (assignTrackIds ts (ex.foldl max 0 + 1)).2.1 :=
      List.mem_iff_getElem?.mpr ⟨i, hasn⟩
    have hnone : dictGet (assignTrackIds ts (ex.foldl max 0 + 1)).1 t.trackGroupId = none := by
      rw [dictGet_eq_none_iff, trackIdMap_keys]
      exact h2
    by_cases hret : t.kind = TKind.ret
    · obtain ⟨e, he⟩ := exceptMapM_error_of_mem _ _
        ⟨_, hmem, _, fixGroupAndRoutings_ret_error _ _ h1 hret⟩
      exact ⟨e, by simp only [updateTrackIds]; exact he⟩
    · obtain ⟨e, he⟩ := exceptMapM_error_of_mem _ _
        ⟨_, hmem, _, fixGroupAndRoutings_unknown_error _ _ h1 hret hnone⟩
      exact ⟨e, by simp only [updateTrackIds]; exact he⟩
  · intro h i t hi h1
    simp only [updateTrackIds] at h
    have hasn := assignTrackIds_snd_getElem? ts (ex.foldl max 0 + 1) i t hi
    obtain ⟨ti', hfix, hti⟩ := exceptMapM_ok_getElem? _ _ _ h i _ hasn
    obtain ⟨_, _, _, hpos⟩ := fixGroupAndRoutings_ok _ _ _ hfix
    obtain ⟨_, g, hget, hrew⟩ := hpos h1
    have hpair : (t.trackGroupId, g) ∈ (assignTrackIds ts (ex.foldl max 0 + 1)).1 :=
      dictGet_eq_some_mem _ _ _ hget
    rw [assignTrackIds_fst] at hpair
    obtain ⟨j, hj⟩ := List.mem_iff_getElem?.mp hpair
    obtain ⟨hj1, hj2⟩ := List.getElem?_zip_eq_some.mp hj
    have hjlt : j < ts.length := by
      have := List.getElem?_eq_some.mp hj2
      obtain ⟨hlt, _⟩ := this
      rw [intRange_length] at hlt
      exact hlt
    have hj2v : g = ex.foldl max 0 + 1 + j := by
      rw [intRange_getElem? ts.length _ j hjlt] at hj2
      cases hj2
      rfl
    cases htj : ts[j]? with
    | none =>
      rw [List.getElem?_eq_none_iff] at htj
      omega
    | some tj =>
      have htjid : tj.id = t.trackGroupId := by
        rw [List.getElem?_map, htj] at hj1
        simp only [Option.map_some'] at hj1
        exact Option.some.inj hj1
      have hasnj := assignTrackIds_snd_getElem? ts (ex.foldl max 0 + 1) j tj htj
      obtain ⟨tj', hfixj, htj'⟩ := exceptMapM_ok_getElem? _ _ _ h j _ hasnj
      obtain ⟨hidj, _, _, _⟩ := fixGroupAndRoutings_ok _ _ _ hfixj
      refine ⟨j, tj, tj', ti', htj, htjid, htj', hti, ?_⟩
      rw [hrew, hidj, hj2v]

/-- Witness for C6 (amended) at a concrete input: the self-grouped track is
accepted and its group id is rewritten to its own new id. -/
theorem c6_group_id_remap_witness :
    ∃ (j : Nat) (tj tj' ti' : MixerTrack),
      ([selfGroupTrack][j]? = some tj) ∧ tj.id = selfGroupTrack.trackGroupId ∧
      ([(⟨.group, 1, 1, -1, [], [], [], [], [], [], []⟩ : MixerTrack)][j]? = some tj') ∧
      ([(⟨.group, 1, 1, -1, [], [], [], [], [], [], []⟩ : MixerTrack)][0]? = some ti') ∧
      ti'.trackGroupId = tj'.id :=
  (c6_group_id_remap [] [selfGroupTrack]
      [⟨.group, 1, 1, -1, [], [], [], [], [], [], []⟩]).2.2
    rfl 0 selfGroupTrack rfl (by decide)

/-- Inversion of a successful `insert_tracks` run: the validation passed,
every stage succeeded, the final track list is the two-step splice of the
synchronized document and batch, and the trace lists the stages in
execution order. -/
theorem insertTracks_ok_inv (doc : Doc) (a : Args) (d' : Doc) (tr : List Stage)
    (h : insertTracks doc a = ((d', none), tr)) :
    ∃ (r0 : Nat) (elems : List PtElem) (next : Int) (mixer₂ : List MixerTrack)
      (doc₂ : Doc) (mixer₃ : List MixerTrack) (next₂ : Int),
      returnTracksLen doc = some r0 ∧
      ¬a.primaryIndex < 0 ∧
      ¬((doc.tracks.filter (fun t => !isRet t)).length : Int) < a.primaryIndex ∧
      ¬a.returnIndex < 0 ∧
      ¬(r0 : Int) < a.returnIndex ∧
      updatePointeeIds (batchPt a) doc.nextPointeeId = .ok (elems, next) ∧
      updateTrackIds (doc.tracks.map MixerTrack.id)
        (writeBackMixer (a.primaryTracks ++ a.returnTracks.map RetIn.track)
          (elems.take (a.primaryTracks ++ a.returnTracks.map RetIn.track).length)) =
        .ok mixer₂ ∧
      stepA a.returnIndex.toNat (a.returnTracks.map RetIn.sendPre)
        { doc with nextPointeeId := next } = .ok doc₂ ∧
      stepB a.returnIndex.toNat a.returnTracks r0 mixer₂ doc₂.nextPointeeId =
        .ok (mixer₃, next₂) ∧
      d'.tracks =
        spliceAt
          (spliceAt doc₂.tracks a.primaryIndex.toNat
            (mixer₃.take a.primaryTracks.length))
          ((doc₂.tracks.filter (fun t => !isRet t)).length + a.primaryTracks.length +
            a.returnIndex.toNat)
          (mixer₃.drop a.primaryTracks.length) ∧
      tr = [.deepCopy, .pointeeRemap, .trackIdRemap, .sendSync, .splice] ++
        (if a.mainTrack.isSome then [.mainReplace] else []) := by
  cases hr0 : returnTracksLen doc with
  | none =>
    simp only [insertTracks, hr0] at h
    simp at h
  | some r0 =>
  by_cases h1 : a.primaryIndex < 0
  · simp only [insertTracks, hr0, if_pos h1] at h
    simp at h
  by_cases h2 : ((doc.tracks.filter (fun t => !isRet t)).length : Int) < a.primaryIndex
  · simp only [insertTracks, hr0, if_neg h1, if_pos h2] at h
    simp at h
  by_cases h3 : a.returnIndex < 0
  · simp only [insertTracks, hr0, if_neg h1, if_neg h2, if_pos h3] at h
    simp at h
  by_cases h4 : (r0 : Int) < a.returnIndex
  · simp only [insertTracks, hr0, if_neg h1, if_neg h2, if_neg h3, if_pos h4] at h
    simp at h
  cases hpt : updatePointeeIds (batchPt a) doc.nextPointeeId with
  | error e =>
    simp only [insertTracks, hr0, if_neg h1, if_neg h2, if_neg h3, if_neg h4, hpt] at h
    simp at h
  | ok pr =>
  obtain ⟨elems, next⟩ := pr
  cases hut : updateTrackIds (doc.tracks.map MixerTrack.id)
      (writeBackMixer (a.primaryTracks ++ a.returnTracks.map RetIn.track)
        (elems.take (a.primaryTracks ++ a.returnTracks.map RetIn.track).length)) with
  | error e =>
    simp only [insertTracks, hr0, if_neg h1, if_neg h2, if_neg h3, if_neg h4, hpt,
      hut] at h
    simp at h
  | ok mixer₂ =>
  cases hcl : checkLinked mixer₂
      (writeBackMain a.mainTrack
        (elems.drop (a.primaryTracks ++ a.returnTracks.map RetIn.track).length)) with
  | error e =>
    simp only [insertTracks, hr0, if_neg h1, if_neg h2, if_neg h3, if_neg h4, hpt, hut,
      hcl] at h
    simp at h
  | ok u =>
  cases hsa : stepA a.returnIndex.toNat (a.returnTracks.map RetIn.sendPre)
      { doc with nextPointeeId := next } with
  | error e =>
    simp only [insertTracks, hr0, if_neg h1, if_neg h2, if_neg h3, if_neg h4, hpt, hut,
      hcl, hsa] at h
    simp at h
  | ok doc₂ =>
  cases hsb : stepB a.returnIndex.toNat a.returnTracks r0 mixer₂ doc₂.nextPointeeId with
  | error e =>
    simp only [insertTracks, hr0, if_neg h1, if_neg h2, if_neg h3, if_neg h4, hpt, hut,
      hcl, hsa, hsb] at h
    simp at h
  | ok pr₂ =>
  obtain ⟨mixer₃, next₂⟩ := pr₂
  simp only [insertTracks, hr0, if_neg h1, if_neg h2, if_neg h3, if_neg h4, hpt, hut,
    hcl, hsa, hsb] at h
  cases hm : a.mainTrack with
  | none =>
    simp only [hm] at h
    simp only [Prod.mk.injEq] at h
    obtain ⟨⟨hd, _⟩, htr⟩ := h
    refine ⟨r0, elems, next, mixer₂, doc₂, mixer₃, next₂, rfl, h1, h2, h3, h4, rfl, hut,
      hsa, hsb, ?_, ?_⟩
    · rw [← hd]
    · rw [← htr]
      simp [hm]
  | some m =>
    cases hdm : doc₂.mainTrack with
    | none =>
      simp only [hm, hdm] at h
      simp at h
    | some m2 =>
      simp only [hm, hdm] at h
      simp only [Prod.mk.injEq] at h
      obtain ⟨⟨hd, _⟩, htr⟩ := h
      refine ⟨r0, elems, next, mixer₂, doc₂, mixer₃, next₂, rfl, h1, h2, h3, h4, rfl, hut,
        hsa, hsb, ?_, ?_⟩
      · rw [← hd]
      · rw [← htr]
        simp [hm]

/-- C5 (amended): on every successful run, `insert_tracks` performs its
steps in this order — deep-copy the inputs, then remap pointee ids, then
remap track ids (rewriting routings and group ids, and checking linked
track groups), then synchronize the send matrices and `SendsPre`, then
splice the tracks into the document, then replace the main track exactly
when one was supplied. -/
theorem c5_step_order (doc : Doc) (a : Args) (d' : Doc) (tr : List Stage)
    (h : insertTracks doc a = ((d', none), tr)) :
    tr = [.deepCopy, .pointeeRemap, .trackIdRemap, .sendSync, .splice] ++
      (if a.mainTrack.isSome then [.mainReplace] else []) := by
  obtain ⟨r0, elems, next, mixer₂, doc₂, mixer₃, next₂, _, _, _, _, _, _, _, _, _, _,
    htr⟩ := insertTracks_ok_inv doc a d' tr h
  exact htr

/-- Witness for C5 (amended) at a concrete successful run without a main
track. -/
theorem c5_step_order_witness :
    (insertTracks docOneReturn ⟨[], 0, [retInNew], 0, none⟩).2 =
      [Stage.deepCopy, Stage.pointeeRemap, Stage.trackIdRemap, Stage.sendSync,
        Stage.splice] ++
      (if (⟨[], 0, [retInNew], 0, none⟩ : Args).mainTrack.isSome then
        [Stage.mainReplace] else []) :=
  c5_step_order docOneReturn ⟨[], 0, [retInNew], 0, none⟩
    (insertTracks docOneReturn ⟨[], 0, [retInNew], 0, none⟩).1.1
    (insertTracks docOneReturn ⟨[], 0, [retInNew], 0, none⟩).2
    (by rfl)

theorem assignDefsElems_len (es : List PtElem) :
    ∀ n : Int, (assignDefsElems es n).2.1.length = es.length := by
  induction es with
  | nil => intro n; rfl
  | cons e es ih => intro n; simp [assignDefsElems, ih]

theorem remapRefsElems_ok_len (m : List (Int × Int)) :
    ∀ (es : List PtElem) (r : List PtElem), remapRefsElems m es = .ok r →
      r.length = es.length := by
  intro es
  induction es with
  | nil => intro r h; cases h; rfl
  | cons e es ih =>
    intro r h
    simp only [remapRefsElems] at h
    cases h1 : remapRefList m e.refs with
    | error e2 => rw [h1] at h; cases h
    | ok refs =>
      rw [h1] at h
      cases h2 : remapRefsElems m es with
      | error e2 =>
        rw [h2] at h
        cases h
      | ok rest =>
        rw [h2] at h
        cases h
        simp [ih rest h2]

theorem updatePointeeIds_ok_len (es : List PtElem) (n : Int) (elems : List PtElem)
    (next : Int) (h : updatePointeeIds es n = .ok (elems, next)) :
    elems.length = es.length := by
  simp only [updatePointeeIds] at h
  cases h1 : remapRefsElems (assignDefsElems es n).1 (assignDefsElems es n).2.1 with
  | error e => rw [h1] at h; cases h
  | ok r =>
    rw [h1] at h
    cases h
    rw [remapRefsElems_ok_len _ _ _ h1, assignDefsElems_len]

theorem writeBackMixer_map (f : MixerTrack → β)
    (hf : ∀ (t : MixerTrack) (d r : List Int),
      f { t with pointeeDefs := d, pointeeRefs := r } = f t) :
    ∀ (ts : List MixerTrack) (es : List PtElem), ts.length ≤ es.length →
      (writeBackMixer ts es).map f = ts.map f := by
  intro ts
  induction ts with
  | nil => intro es h; rfl
  | cons t ts ih =>
    intro es h
    cases es with
    | nil => simp at h
    | cons e es =>
      simp only [writeBackMixer, List.zipWith_cons_cons, List.map_cons]
      rw [hf]
      simp only [List.length_cons, Nat.add_le_add_iff_right] at h
      have := ih es h
      simp only [writeBackMixer] at this
      rw [this]

theorem writeBackMixer_length (ts : List MixerTrack) (es : List PtElem) :
    (writeBackMixer ts es).length = min ts.length es.length := by
  simp [writeBackMixer]

/-- Peeling one `Except` bind of a successful do-chain. -/
theorem bind_ok_inv {α β : Type} (x : Except Err α) (f : α → Except Err β) (b : β)
    (h : x >>= f = .ok b) : ∃ a, x = .ok a ∧ f a = .ok b := by
  cases x with
  | error e => cases h
  | ok a => exact ⟨a, rfl, h⟩

theorem addBlanksToTracks_ok_idKind (ri : Nat) :
    ∀ (ts : List MixerTrack) (c : Int) (r : List MixerTrack × Int),
      addBlanksToTracks ri ts c = .ok r → r.1.map idKind = ts.map idKind := by
  intro ts
  induction ts with
  | nil => intro c r h; cases h; rfl
  | cons t ts ih =>
    intro c r h
    cases h1 : addBlankSendSt ri t.sends c with
    | mk res c' =>
    cases res with
    | error e =>
      simp only [addBlanksToTracks, h1] at h
      cases h
    | ok s' =>
      cases h2 : addBlanksToTracks ri ts c' with
      | error e =>
        simp only [addBlanksToTracks, h1, h2, Except.map] at h
        cases h
      | ok r' =>
        simp only [addBlanksToTracks, h1, h2, Except.map, Except.ok.injEq] at h
        subst h
        simp only [List.map_cons, idKind]
        rw [ih c' r' h2]

theorem stepAOnce_ok_idKind (ri : Nat) (pre : Bool) (doc doc₂ : Doc)
    (h : stepAOnce ri pre doc = .ok doc₂) :
    doc₂.tracks.map idKind = doc.tracks.map idKind := by
  simp only [stepAOnce] at h
  obtain ⟨r, h1, h⟩ := bind_ok_inv _ _ _ h
  obtain ⟨bools, h2, h⟩ := bind_ok_inv _ _ _ h
  cases h
  exact addBlanksToTracks_ok_idKind ri doc.tracks doc.nextPointeeId r h1

theorem stepA_fold_ok_idKind (ri : Nat) :
    ∀ (ps : List Bool) (doc doc₂ : Doc),
      ps.foldlM (fun d p => stepAOnce ri p d) doc = .ok doc₂ →
      doc₂.tracks.map idKind = doc.tracks.map idKind := by
  intro ps
  induction ps with
  | nil => intro doc doc₂ h; cases h; rfl
  | cons p ps ih =>
    intro doc doc₂ h
    rw [List.foldlM_cons] at h
    obtain ⟨d1, h1, h⟩ := bind_ok_inv _ _ _ h
    rw [ih d1 doc₂ h, stepAOnce_ok_idKind ri p doc d1 h1]

theorem stepA_ok_idKind (ri : Nat) (ps : List Bool) (doc doc₂ : Doc)
    (h : stepA ri ps doc = .ok doc₂) :
    doc₂.tracks.map idKind = doc.tracks.map idKind :=
  stepA_fold_ok_idKind ri ps.reverse doc doc₂ h

theorem rebuildSends_ok_idKind (ri : Nat) (retsIn : List RetIn) (r0 : Nat)
    (t : MixerTrack) (c : Int) (t' : MixerTrack) (c' : Int)
    (h : rebuildSends ri retsIn r0 t c = .ok (t', c')) : idKind t' = idKind t := by
  simp only [rebuildSends] at h
  obtain ⟨ext, h1, h⟩ := bind_ok_inv _ _ _ h
  obtain ⟨r₁, h2, h⟩ := bind_ok_inv _ _ _ h
  obtain ⟨s2, h3, h⟩ := bind_ok_inv _ _ _ h
  cases h
  rfl

theorem stepB_ok_idKind (ri : Nat) (retsIn : List RetIn) (r0 : Nat) :
    ∀ (ts : List MixerTrack) (c : Int) (r : List MixerTrack × Int),
      stepB ri retsIn r0 ts c = .ok r → r.1.map idKind = ts.map idKind := by
  intro ts
  induction ts with
  | nil => intro c r h; cases h; rfl
  | cons t ts ih =>
    intro c r h
    simp only [stepB] at h
    obtain ⟨r₁, h1, h⟩ := bind_ok_inv _ _ _ h
    obtain ⟨r₂, h2, h⟩ := bind_ok_inv _ _ _ h
    cases h
    obtain ⟨t1, c1⟩ := r₁
    simp only [List.map_cons]
    rw [ih _ _ h2, rebuildSends_ok_idKind ri retsIn r0 t c t1 c1 h1]

theorem spliceAt_eq (i : Nat) :
    ∀ (xs l : List α), i ≤ l.length →
      spliceAt l i xs = l.take i ++ xs ++ l.drop i := by
  intro xs
  induction xs with
  | nil =>
    intro l hi
    simp [spliceAt]
  | cons x xs ih =>
    intro l hi
    have hfold : spliceAt l i (x :: xs) = pyInsert (spliceAt l i xs) i x := by
      simp only [spliceAt, List.reverse_cons, List.foldl_append, List.foldl_cons,
        List.foldl_nil]
    rw [hfold, ih l hi]
    have htl : (l.take i).length = i := by
      rw [List.length_take]
      omega
    unfold pyInsert
    simp only [List.append_assoc]
    rw [List.take_left' htl, List.drop_left' htl]
    simp

theorem perm_block (A X B : List α) : (A ++ X ++ B).Perm (X ++ (A ++ B)) := by
  rw [List.append_assoc]
  refine List.Perm.trans List.perm_append_comm ?_
  rw [List.append_assoc]
  exact List.Perm.append_left X List.perm_append_comm

theorem le_foldl_max_init (l : List Int) : ∀ a : Int, a ≤ l.foldl max a := by
  induction l with
  | nil => intro a; simp
  | cons x l ih =>
    intro a
    simp only [List.foldl_cons]
    exact le_trans (le_max_left a x) (ih (max a x))

theorem le_foldl_max_mem (l : List Int) :
    ∀ (a x : Int), x ∈ l → x ≤ l.foldl max a := by
  induction l with
  | nil => intro a x hx; cases hx
  | cons y l ih =>
    intro a x hx
    rcases List.mem_cons.mp hx with rfl | hx
    · simp only [List.foldl_cons]
      exact le_trans (le_max_right a x) (le_foldl_max_init l (max a x))
    · simp only [List.foldl_cons]
      exact ih (max a y) x hx

theorem length_filter_congr_isRet (l l' : List MixerTrack)
    (h : l.map isRet = l'.map isRet) (q : Bool → Bool) :
    (l.filter (fun t => q (isRet t))).length = (l'.filter (fun t => q (isRet t))).length := by
  have haux : ∀ ll : List MixerTrack,
      (ll.filter (fun t => q (isRet t))).length = List.countP q (ll.map isRet) := by
    intro ll
    rw [← List.countP_eq_length_filter, List.countP_map]
    rfl
  rw [haux, haux, h]

theorem isRet_all_of_map_eq (l l' : List MixerTrack)
    (h : l.map isRet = l'.map isRet) (b : Bool) (hall : ∀ t ∈ l, isRet t = b) :
    ∀ t ∈ l', isRet t = b := by
  intro t ht
  have hmem : isRet t ∈ l'.map isRet := List.mem_map_of_mem isRet ht
  rw [← h] at hmem
  rcases List.mem_map.mp hmem with ⟨u, hu, he⟩
  rw [← he]
  exact hall u hu

theorem map_id_of_map_idKind {l l' : List MixerTrack} (h : l.map idKind = l'.map idKind) :
    l.map MixerTrack.id = l'.map MixerTrack.id := by
  have h2 := congrArg (List.map Prod.fst) h
  simpa [List.map_map, Function.comp, idKind] using h2

theorem map_isRet_of_map_idKind {l l' : List MixerTrack}
    (h : l.map idKind = l'.map idKind) : l.map isRet = l'.map isRet := by
  have h2 := congrArg (List.map (fun p : Int × TKind => (decide (p.2 = TKind.ret) : Bool))) h
  simpa [List.map_map, Function.comp, idKind, isRet] using h2

theorem length_eq_of_map_idKind {l l' : List MixerTrack}
    (h : l.map idKind = l'.map idKind) : l.length = l'.length := by
  have h2 := congrArg List.length h
  simpa using h2

theorem returnTracksLen_eq (doc : Doc) (r0 : Nat) (h : returnTracksLen doc = some r0) :
    (doc.tracks.filter isRet).length = r0 := by
  unfold returnTracksLen at h
  by_cases hc : (doc.tracks.filter isRet).length ≤ doc.sendsPre.length
  · rw [if_pos hc] at h
    exact Option.some.inj h
  · rw [if_neg hc] at h
    cases h

theorem msOf_append (A B : List Int) : msOf (A ++ B) = msOf A + msOf B :=
  (Multiset.coe_add A B).symm

theorem msOf_map_append (f : MixerTrack → Int) (A B : List MixerTrack) :
    msOf ((A ++ B).map f) = msOf (A.map f) + msOf (B.map f) := by
  unfold msOf
  rw [List.map_append]
  exact (Multiset.coe_add _ _).symm

theorem msOf_map_take_drop (f : MixerTrack → Int) (n : Nat) (l : List MixerTrack) :
    msOf ((l.take n).map f) + msOf ((l.drop n).map f) = msOf (l.map f) := by
  unfold msOf
  rw [Multiset.coe_add, ← List.map_append, List.take_append_drop]

theorem multiset_shuffle (c r3 d a1 p3 a2 t rng : Multiset Int)
    (e1 : c + d = a1 + p3 + a2) (e2 : a1 + a2 = t) (e3 : p3 + r3 = rng) :
    c + r3 + d = t + rng := by
  have h1 : c + r3 + d = c + d + r3 := by abel
  rw [h1, e1]
  have h2 : a1 + p3 + a2 + r3 = a1 + a2 + (p3 + r3) := by abel
  rw [h2, e2, e3]

/-- C3: after every successful `insert_tracks` call on a document whose
mixer-track ids are pairwise distinct, the resulting document's mixer-track
ids are pairwise distinct; the ids are exactly the old ids plus the fresh
sequential block `max(0, existing ids) + 1, ..., + k` (one per inserted
mixer track, so every new id is strictly greater than every id already in
use).  The main track is never assigned an id: in the model, as in the
source, `MainTrack` has no id attribute at all. -/
theorem c3_track_id_uniqueness (doc : Doc) (a : Args) (d' : Doc) (tr : List Stage)
    (hnd : (mixerIds doc).Nodup)
    (h : insertTracks doc a = ((d', none), tr)) :
    (mixerIds d').Perm (mixerIds doc ++
      intRange (maxTrackId doc + 1) (a.primaryTracks.length + a.returnTracks.length)) ∧
    (mixerIds d').Nodup ∧
    (∀ x ∈ mixerIds doc,
      ∀ y ∈ intRange (maxTrackId doc + 1)
        (a.primaryTracks.length + a.returnTracks.length), x < y) := by
  obtain ⟨r0, elems, next, mixer₂, doc₂, mixer₃, next₂, hr0, h1, h2, h3, h4, hpt, hut,
    hsa, hsb, hdt, _⟩ := insertTracks_ok_inv doc a d' tr h
  have hel : elems.length = (batchPt a).length := updatePointeeIds_ok_len _ _ _ _ hpt
  have hge : (a.primaryTracks ++ a.returnTracks.map RetIn.track).length ≤ elems.length := by
    rw [hel]
    simp only [batchPt, List.length_append, List.length_map]
    omega
  have hm1len : (writeBackMixer (a.primaryTracks ++ a.returnTracks.map RetIn.track)
      (elems.take (a.primaryTracks ++ a.returnTracks.map RetIn.track).length)).length =
      a.primaryTracks.length + a.returnTracks.length := by
    rw [writeBackMixer_length, List.length_take]
    simp only [List.length_append, List.length_map] at hge ⊢
    omega
  obtain ⟨hm2len, hm2ids, _⟩ := updateTrackIds_ok_spec _ _ _ hut
  have hm3pair := stepB_ok_idKind _ _ _ _ _ _ hsb
  have hm3len : mixer₃.length = a.primaryTracks.length + a.returnTracks.length := by
    rw [length_eq_of_map_idKind hm3pair, hm2len, hm1len]
  have hm3ids : mixer₃.map MixerTrack.id =
      intRange (maxTrackId doc + 1) (a.primaryTracks.length + a.returnTracks.length) := by
    have h5 := map_id_of_map_idKind hm3pair
    rw [h5, hm2ids, hm1len]
    rfl
  have hd2pair0 := stepA_ok_idKind _ _ _ _ hsa
  have hd2pair : doc₂.tracks.map idKind = doc.tracks.map idKind := hd2pair0
  have hd2ids : doc₂.tracks.map MixerTrack.id = mixerIds doc :=
    map_id_of_map_idKind hd2pair
  have hd2ret : doc₂.tracks.map isRet = doc.tracks.map isRet :=
    map_isRet_of_map_idKind hd2pair
  have hd2len : doc₂.tracks.length = doc.tracks.length := length_eq_of_map_idKind hd2pair
  have hpc : a.primaryIndex.toNat ≤ (doc.tracks.filter (fun t => !isRet t)).length := by
    omega
  have hfl : (doc.tracks.filter (fun t => !isRet t)).length ≤ doc.tracks.length :=
    List.length_filter_le _ _
  have hb1 : a.primaryIndex.toNat ≤ doc₂.tracks.length := by omega
  have hretc : (doc.tracks.filter isRet).length = r0 := returnTracksLen_eq doc r0 hr0
  have hp0 : (doc₂.tracks.filter (fun t => !isRet t)).length =
      (doc.tracks.filter (fun t => !isRet t)).length :=
    length_filter_congr_isRet _ _ hd2ret (fun b => !b)
  have hsplit : doc.tracks.length = (doc.tracks.filter isRet).length +
      (doc.tracks.filter (fun t => !isRet t)).length := by
    have h6 := List.length_eq_length_filter_add (l := doc.tracks) isRet
    omega
  have hb2 : (doc₂.tracks.filter (fun t => !isRet t)).length + a.primaryTracks.length +
      a.returnIndex.toNat ≤
      (doc₂.tracks.take a.primaryIndex.toNat ++ mixer₃.take a.primaryTracks.length ++
        doc₂.tracks.drop a.primaryIndex.toNat).length := by
    simp only [List.length_append, List.length_take, List.length_drop]
    omega
  have hsp1 : spliceAt doc₂.tracks a.primaryIndex.toNat
      (mixer₃.take a.primaryTracks.length) =
      doc₂.tracks.take a.primaryIndex.toNat ++ mixer₃.take a.primaryTracks.length ++
        doc₂.tracks.drop a.primaryIndex.toNat :=
    spliceAt_eq _ _ _ hb1
  have hsp2 := spliceAt_eq ((doc₂.tracks.filter (fun t => !isRet t)).length +
      a.primaryTracks.length + a.returnIndex.toNat)
    (mixer₃.drop a.primaryTracks.length) _ hb2
  have hperm : (mixerIds d').Perm (mixerIds doc ++
      intRange (maxTrackId doc + 1)
        (a.primaryTracks.length + a.returnTracks.length)) := by
    refine Multiset.coe_eq_coe.mp ?_
    show msOf (d'.tracks.map MixerTrack.id) = msOf (mixerIds doc ++ _)
    rw [hdt, hsp1, hsp2, msOf_map_append, msOf_map_append, msOf_append]
    have e1 := (msOf_map_take_drop MixerTrack.id
      ((doc₂.tracks.filter (fun t => !isRet t)).length + a.primaryTracks.length +
        a.returnIndex.toNat)
      (doc₂.tracks.take a.primaryIndex.toNat ++ mixer₃.take a.primaryTracks.length ++
        doc₂.tracks.drop a.primaryIndex.toNat)).trans
      (by rw [msOf_map_append, msOf_map_append])
    have e2 := msOf_map_take_drop MixerTrack.id a.primaryIndex.toNat doc₂.tracks
    have e3 := msOf_map_take_drop MixerTrack.id a.primaryTracks.length mixer₃
    have e6 : msOf (mixer₃.map MixerTrack.id) =
        msOf (intRange (maxTrackId doc + 1)
          (a.primaryTracks.length + a.returnTracks.length)) := by rw [hm3ids]
    have e5 : msOf (doc₂.tracks.map MixerTrack.id) = msOf (mixerIds doc) := by
      rw [hd2ids]
    exact multiset_shuffle _ _ _ _ _ _ _ _ e1 (e2.trans e5) (e3.trans e6)
  have hless : ∀ x ∈ mixerIds doc,
      ∀ y ∈ intRange (maxTrackId doc + 1)
        (a.primaryTracks.length + a.returnTracks.length), x < y := by
    intro x hx y hy
    rw [mem_intRange] at hy
    have hxle : x ≤ maxTrackId doc := le_foldl_max_mem _ _ _ hx
    omega
  refine ⟨hperm, ?_, hless⟩
  rw [hperm.nodup_iff]
  rw [List.nodup_append]
  refine ⟨hnd, intRange_nodup _ _, ?_⟩
  intro x hx hx2
  have := hless x hx x hx2
  omega

/-- Witness for C3 at a concrete successful run: inserting one return
track into a document whose only mixer track has id 1 yields ids `{1, 2}`. -/
theorem c3_track_id_uniqueness_witness :
    (mixerIds (insertTracks docOneReturn ⟨[], 0, [retInNew], 0, none⟩).1.1).Perm
      (mixerIds docOneReturn ++ intRange (maxTrackId docOneReturn + 1)
        ((⟨[], 0, [retInNew], 0, none⟩ : Args).primaryTracks.length +
          (⟨[], 0, [retInNew], 0, none⟩ : Args).returnTracks.length)) ∧
    (mixerIds (insertTracks docOneReturn ⟨[], 0, [retInNew], 0, none⟩).1.1).Nodup ∧
    (∀ x ∈ mixerIds docOneReturn,
      ∀ y ∈ intRange (maxTrackId docOneReturn + 1)
        ((⟨[], 0, [retInNew], 0, none⟩ : Args).primaryTracks.length +
          (⟨[], 0, [retInNew], 0, none⟩ : Args).returnTracks.length), x < y) :=
  c3_track_id_uniqueness docOneReturn ⟨[], 0, [retInNew], 0, none⟩
    (insertTracks docOneReturn ⟨[], 0, [retInNew], 0, none⟩).1.1
    (insertTracks docOneReturn ⟨[], 0, [retInNew], 0, none⟩).2
    (by decide) (by rfl)

theorem orderedTracks_of_all_ret :
    ∀ l : List MixerTrack, (∀ t ∈ l, isRet t = true) → orderedTracks l = true := by
  intro l
  induction l with
  | nil => intro hall; rfl
  | cons t ts ih =>
    intro hall
    simp only [orderedTracks]
    rw [if_pos (hall t (List.mem_cons_self t ts)), List.all_eq_true]
    intro x hx
    exact hall x (List.mem_cons_of_mem t hx)

theorem orderedTracks_of_split :
    ∀ (ps rs : List MixerTrack), (∀ t ∈ ps, isRet t = false) →
      (∀ t ∈ rs, isRet t = true) → orderedTracks (ps ++ rs) = true := by
  intro ps
  induction ps with
  | nil =>
    intro rs hps hrs
    exact orderedTracks_of_all_ret rs hrs
  | cons p ps ih =>
    intro rs hps hrs
    have hp : isRet p = false := hps p (List.mem_cons_self p ps)
    simp only [List.cons_append, orderedTracks]
    rw [if_neg (by simp [hp])]
    exact ih rs (fun t ht => hps t (List.mem_cons_of_mem p ht)) hrs

theorem split_of_orderedTracks :
    ∀ l : List MixerTrack, orderedTracks l = true →
      ∃ ps rs, l = ps ++ rs ∧ (∀ t ∈ ps, isRet t = false) ∧
        (∀ t ∈ rs, isRet t = true) := by
  intro l
  induction l with
  | nil => intro _; exact ⟨[], [], rfl, by simp, by simp⟩
  | cons t ts ih =>
    intro h
    by_cases hret : isRet t = true
    · refine ⟨[], t :: ts, rfl, by simp, ?_⟩
      simp only [orderedTracks] at h
      rw [if_pos hret, List.all_eq_true] at h
      intro x hx
      rcases List.mem_cons.mp hx with rfl | hx
      · exact hret
      · exact h x hx
    · simp only [orderedTracks] at h
      rw [if_neg hret] at h
      obtain ⟨ps, rs, heq, hps, hrs⟩ := ih h
      refine ⟨t :: ps, rs, by rw [heq]; rfl, ?_, hrs⟩
      intro x hx
      rcases List.mem_cons.mp hx with rfl | hx
      · exact Bool.eq_false_iff.mpr hret
      · exact hps x hx

theorem orderedTracks_iff_pairwise :
    ∀ l : List MixerTrack, orderedTracks l = true ↔
      l.Pairwise (fun a b => isRet a = true → isRet b = true) := by
  intro l
  induction l with
  | nil => simp [orderedTracks]
  | cons t ts ih =>
    by_cases hret : isRet t = true
    · simp only [orderedTracks, if_pos hret, List.pairwise_cons, List.all_eq_true]
      constructor
      · intro h
        refine ⟨fun b hb _ => h b hb, ?_⟩
        rw [← ih]
        exact orderedTracks_of_all_ret ts h
      · rintro ⟨h1, _⟩
        intro b hb
        exact h1 b hb hret
    · simp only [orderedTracks, if_neg hret, List.pairwise_cons, ih]
      constructor
      · intro h
        exact ⟨fun b hb habs => absurd habs hret, h⟩
      · rintro ⟨_, h⟩
        exact h

theorem removeNthMatching_sublist (p : MixerTrack → Bool) :
    ∀ (j : Nat) (l : List MixerTrack), List.Sublist (removeNthMatching p j l) l := by
  intro j l
  induction l generalizing j with
  | nil => simp [removeNthMatching]
  | cons x xs ih =>
    simp only [removeNthMatching]
    by_cases hx : p x
    · rw [if_pos hx]
      cases j with
      | zero => exact List.sublist_cons_self x xs
      | succ j' => exact List.Sublist.cons₂ x (ih j')
    · rw [if_neg hx]
      exact List.Sublist.cons₂ x (ih j)

theorem orderedTracks_sublist {l l' : List MixerTrack}
    (hs : List.Sublist l' l) (h : orderedTracks l = true) :
    orderedTracks l' = true := by
  rw [orderedTracks_iff_pairwise] at h ⊢
  exact List.Pairwise.sublist hs h

theorem ordered_double_splice (ps rs xs ys : List MixerTrack) (pi ri : Nat)
    (hps : ∀ t ∈ ps, isRet t = false) (hrs : ∀ t ∈ rs, isRet t = true)
    (hxs : ∀ t ∈ xs, isRet t = false) (hys : ∀ t ∈ ys, isRet t = true)
    (hpi : pi ≤ ps.length) (hri : ri ≤ rs.length) :
    orderedTracks
      (spliceAt (spliceAt (ps ++ rs) pi xs) (ps.length + xs.length + ri) ys) = true := by
  have hsp1 : spliceAt (ps ++ rs) pi xs =
      (ps ++ rs).take pi ++ xs ++ (ps ++ rs).drop pi :=
    spliceAt_eq _ _ _ (by rw [List.length_append]; omega)
  have htake1 : (ps ++ rs).take pi = ps.take pi := by
    rw [List.take_append_eq_append_take, Nat.sub_eq_zero_of_le hpi, List.take_zero,
      List.append_nil]
  have hdrop1 : (ps ++ rs).drop pi = ps.drop pi ++ rs := by
    rw [List.drop_append_eq_append_drop, Nat.sub_eq_zero_of_le hpi, List.drop_zero]
  have hS1 : spliceAt (ps ++ rs) pi xs = (ps.take pi ++ xs ++ ps.drop pi) ++ rs := by
    rw [hsp1, htake1, hdrop1]
    simp [List.append_assoc]
  have hlenPS : (ps.take pi ++ xs ++ ps.drop pi).length = ps.length + xs.length := by
    simp only [List.length_append, List.length_take, List.length_drop]
    omega
  have hb2 : ps.length + xs.length + ri ≤
      ((ps.take pi ++ xs ++ ps.drop pi) ++ rs).length := by
    simp only [List.length_append, List.length_take, List.length_drop]
    omega
  have hsub : ps.length + xs.length + ri -
      (ps.take pi ++ xs ++ ps.drop pi).length = ri := by
    rw [hlenPS]
    omega
  have htake2 : ((ps.take pi ++ xs ++ ps.drop pi) ++ rs).take
      (ps.length + xs.length + ri) =
      (ps.take pi ++ xs ++ ps.drop pi) ++ rs.take ri := by
    rw [List.take_append_eq_append_take, hsub,
      List.take_of_length_le (by rw [hlenPS]; omega)]
  have hdrop2 : ((ps.take pi ++ xs ++ ps.drop pi) ++ rs).drop
      (ps.length + xs.length + ri) = rs.drop ri := by
    rw [List.drop_append_eq_append_drop, hsub,
      List.drop_eq_nil_of_le (by rw [hlenPS]; omega), List.nil_append]
  rw [hS1, spliceAt_eq _ _ _ hb2, htake2, hdrop2]
  have hassoc : (ps.take pi ++ xs ++ ps.drop pi) ++ rs.take ri ++ ys ++ rs.drop ri =
      (ps.take pi ++ xs ++ ps.drop pi) ++ (rs.take ri ++ ys ++ rs.drop ri) := by
    simp [List.append_assoc]
  rw [hassoc]
  apply orderedTracks_of_split
  · intro t ht
    rcases List.mem_append.mp ht with ht | ht
    · rcases List.mem_append.mp ht with ht | ht
      · exact hps t (List.take_subset _ _ ht)
      · exact hxs t ht
    · exact hps t (List.drop_subset _ _ ht)
  · intro t ht
    rcases List.mem_append.mp ht with ht | ht
    · rcases List.mem_append.mp ht with ht | ht
      · exact hrs t (List.take_subset _ _ ht)
      · exact hys t ht
    · exact hrs t (List.drop_subset _ _ ht)

theorem map_isRet_of_map_kind {l l' : List MixerTrack}
    (h : l.map MixerTrack.kind = l'.map MixerTrack.kind) :
    l.map isRet = l'.map isRet := by
  have h2 := congrArg (List.map (fun k : TKind => (decide (k = TKind.ret) : Bool))) h
  simpa [List.map_map, Function.comp, isRet] using h2

theorem length_filter_isRet_congr (l l' : List MixerTrack)
    (h : l.map isRet = l'.map isRet) :
    (l.filter isRet).length = (l'.filter isRet).length := by
  have haux : ∀ ll : List MixerTrack,
      (ll.filter isRet).length = List.countP id (ll.map isRet) := by
    intro ll
    rw [← List.countP_eq_length_filter, List.countP_map]
    rfl
  rw [haux, haux, h]

theorem orderedTracks_eq_of_map {l l' : List MixerTrack}
    (h : l.map isRet = l'.map isRet) (h0 : orderedTracks l = true) :
    orderedTracks l' = true := by
  rw [orderedTracks_iff_pairwise] at h0 ⊢
  have h1 : (l.map isRet).Pairwise (fun x y => x = true → y = true) :=
    List.pairwise_map.mpr h0
  rw [h] at h1
  exact List.pairwise_map.mp h1

/-- C7: on a valid document (one whose track list passes the constructor's
order check: no primary track after a return track), every successful
mutation preserves the order invariant — `insert_tracks` (whose API types
require the primary batch to hold primary tracks and the return batch to
hold return tracks), `insert_primary_tracks`, `insert_return_tracks`,
`delete_primary_track` and `delete_return_track`. -/
theorem c7_order_invariant (doc : Doc) (hord : orderedTracks doc.tracks = true) :
    (∀ (a : Args) (d' : Doc) (tr : List Stage),
      (∀ t ∈ a.primaryTracks, isRet t = false) →
      (∀ rt ∈ a.returnTracks, isRet rt.track = true) →
      insertTracks doc a = ((d', none), tr) → orderedTracks d'.tracks = true) ∧
    (∀ (ts : List MixerTrack) (i : Int) (d' : Doc) (tr : List Stage),
      (∀ t ∈ ts, isRet t = false) →
      insertPrimaryTracks doc ts i = ((d', none), tr) →
      orderedTracks d'.tracks = true) ∧
    (∀ (rts : List RetIn) (i : Int) (d' : Doc) (tr : List Stage),
      (∀ rt ∈ rts, isRet rt.track = true) →
      insertReturnTracks doc rts i = ((d', none), tr) →
      orderedTracks d'.tracks = true) ∧
    (∀ (i : Int) (d' : Doc), deletePrimaryTrack doc i = (d', none) →
      orderedTracks d'.tracks = true) ∧
    (∀ (i : Int) (d' : Doc), deleteReturnTrack doc i = (d', none) →
      orderedTracks d'.tracks = true) := by
  have main : ∀ (a : Args) (d' : Doc) (tr : List Stage),
      (∀ t ∈ a.primaryTracks, isRet t = false) →
      (∀ rt ∈ a.returnTracks, isRet rt.track = true) →
      insertTracks doc a = ((d', none), tr) → orderedTracks d'.tracks = true := by
    intro a d' tr hp hr h
    obtain ⟨r0, elems, next, mixer₂, doc₂, mixer₃, next₂, hr0, h1, h2, h3, h4, hpt, hut,
      hsa, hsb, hdt, _⟩ := insertTracks_ok_inv doc a d' tr h
    have hel : elems.length = (batchPt a).length := updatePointeeIds_ok_len _ _ _ _ hpt
    have hge : (a.primaryTracks ++ a.returnTracks.map RetIn.track).length ≤
        elems.length := by
      rw [hel]
      simp only [batchPt, List.length_append, List.length_map]
      omega
    have hm1len : (writeBackMixer (a.primaryTracks ++ a.returnTracks.map RetIn.track)
        (elems.take (a.primaryTracks ++ a.returnTracks.map RetIn.track).length)).length =
        a.primaryTracks.length + a.returnTracks.length := by
      rw [writeBackMixer_length, List.length_take]
      simp only [List.length_append, List.length_map] at hge ⊢
      omega
    obtain ⟨hm2len, _, hm2kinds⟩ := updateTrackIds_ok_spec _ _ _ hut
    have hm3pair := stepB_ok_idKind _ _ _ _ _ _ hsb
    have hm3len : mixer₃.length = a.primaryTracks.length + a.returnTracks.length := by
      rw [length_eq_of_map_idKind hm3pair, hm2len, hm1len]
    have hwb : (writeBackMixer (a.primaryTracks ++ a.returnTracks.map RetIn.track)
        (elems.take (a.primaryTracks ++ a.returnTracks.map RetIn.track).length)).map
          isRet =
        (a.primaryTracks ++ a.returnTracks.map RetIn.track).map isRet :=
      writeBackMixer_map isRet (fun t d r => rfl) _ _ (by rw [List.length_take]; omega)
    have hbret : mixer₃.map isRet =
        (a.primaryTracks ++ a.returnTracks.map RetIn.track).map isRet :=
      (map_isRet_of_map_idKind hm3pair).trans ((map_isRet_of_map_kind hm2kinds).trans hwb)
    have htk : (mixer₃.take a.primaryTracks.length).map isRet =
        a.primaryTracks.map isRet := by
      rw [List.map_take, hbret, List.map_append,
        List.take_left' (by rw [List.length_map])]
    have hdr : (mixer₃.drop a.primaryTracks.length).map isRet =
        (a.returnTracks.map RetIn.track).map isRet := by
      rw [List.map_drop, hbret, List.map_append,
        List.drop_left' (by rw [List.length_map])]
    have hP3 : ∀ t ∈ mixer₃.take a.primaryTracks.length, isRet t = false :=
      isRet_all_of_map_eq _ _ htk.symm false hp
    have hR3 : ∀ t ∈ mixer₃.drop a.primaryTracks.length, isRet t = true := by
      refine isRet_all_of_map_eq _ _ hdr.symm true ?_
      intro t ht
      rcases List.mem_map.mp ht with ⟨rt, hrt, hrte⟩
      rw [← hrte]
      exact hr rt hrt
    have hd2pair0 := stepA_ok_idKind _ _ _ _ hsa
    have hd2pair : doc₂.tracks.map idKind = doc.tracks.map idKind := hd2pair0
    have hd2ret : doc₂.tracks.map isRet = doc.tracks.map isRet :=
      map_isRet_of_map_idKind hd2pair
    have hord2 : orderedTracks doc₂.tracks = true :=
      orderedTracks_eq_of_map hd2ret.symm hord
    obtain ⟨ps₂, rs₂, hT, hps₂, hrs₂⟩ := split_of_orderedTracks doc₂.tracks hord2
    have e1 : ps₂.filter (fun t => !isRet t) = ps₂ :=
      List.filter_eq_self.mpr (by intro x hx; simp [hps₂ x hx])
    have e2 : rs₂.filter (fun t => !isRet t) = [] := by
      rw [List.filter_eq_nil_iff]
      intro x hx
      simp [hrs₂ x hx]
    have e3 : ps₂.filter isRet = [] := by
      rw [List.filter_eq_nil_iff]
      intro x hx
      simp [hps₂ x hx]
    have e4 : rs₂.filter isRet = rs₂ :=
      List.filter_eq_self.mpr (by intro x hx; simp [hrs₂ x hx])
    have hps2fl : ps₂.length = (doc₂.tracks.filter (fun t => !isRet t)).length := by
      rw [hT, List.filter_append, e1, e2, List.length_append]
      simp
    have hrs2fl : rs₂.length = (doc₂.tracks.filter isRet).length := by
      rw [hT, List.filter_append, e3, e4, List.length_append]
      simp
    have hp0 : (doc₂.tracks.filter (fun t => !isRet t)).length =
        (doc.tracks.filter (fun t => !isRet t)).length :=
      length_filter_congr_isRet _ _ hd2ret (fun b => !b)
    have hretc : (doc.tracks.filter isRet).length = r0 := returnTracksLen_eq doc r0 hr0
    have h9 : (doc₂.tracks.filter isRet).length = (doc.tracks.filter isRet).length :=
      length_filter_isRet_congr _ _ hd2ret
    have hpile : a.primaryIndex.toNat ≤ ps₂.length := by omega
    have hrile : a.returnIndex.toNat ≤ rs₂.length := by omega
    have hgoal := ordered_double_splice ps₂ rs₂ (mixer₃.take a.primaryTracks.length)
      (mixer₃.drop a.primaryTracks.length) a.primaryIndex.toNat a.returnIndex.toNat
      hps₂ hrs₂ hP3 hR3 hpile hrile
    rw [← hT] at hgoal
    have hpos : ps₂.length + (mixer₃.take a.primaryTracks.length).length +
        a.returnIndex.toNat =
        (doc₂.tracks.filter (fun t => !isRet t)).length + a.primaryTracks.length +
          a.returnIndex.toNat := by
      rw [List.length_take]
      omega
    rw [hpos] at hgoal
    rw [hdt]
    exact hgoal
  refine ⟨main, ?_, ?_, ?_, ?_⟩
  · intro ts i d' tr hk h
    simp only [insertPrimaryTracks] at h
    refine main ⟨ts, i, [], 0, none⟩ d' tr hk ?_ h
    intro rt hrt
    simp at hrt
  · intro rts i d' tr hk h
    simp only [insertReturnTracks] at h
    refine main ⟨[], 0, rts, i, none⟩ d' tr ?_ hk h
    intro t ht
    simp at ht
  · intro i d' h
    cases hj : pyIdx (doc.tracks.filter (fun t => !isRet t)).length i with
    | none =>
      simp only [deletePrimaryTrack, hj] at h
      simp at h
    | some j =>
      simp only [deletePrimaryTrack, hj, Prod.mk.injEq] at h
      obtain ⟨hd, _⟩ := h
      rw [← hd]
      exact orderedTracks_sublist (removeNthMatching_sublist _ _ _) hord
  · intro i d' h
    cases hn : returnTracksLen doc with
    | none =>
      simp only [deleteReturnTrack, hn] at h
      simp at h
    | some n =>
      cases hj : pyIdx n i with
      | none =>
        simp only [deleteReturnTrack, hn, hj] at h
        simp at h
      | some j =>
        simp only [deleteReturnTrack, hn, hj, Prod.mk.injEq] at h
        obtain ⟨hd, _⟩ := h
        rw [← hd]
        exact orderedTracks_sublist (removeNthMatching_sublist _ _ _) hord

/-- Witness for C7: the ordered document with one primary and one return
track stays ordered after deleting its primary track at index 0. -/
theorem c7_order_invariant_witness :
    orderedTracks docPrimAndRet.tracks = true ∧
    orderedTracks (deletePrimaryTrack docPrimAndRet 0).1.tracks = true := by
  refine ⟨by decide, ?_⟩
  exact (c7_order_invariant docPrimAndRet (by decide)).2.2.2.1 0
    (deletePrimaryTrack docPrimAndRet 0).1 (by rfl)
